import Mathlib

/-!
Verification of the cube permutation engine of `CubeEncryptUtils`
(`CubeUtils.py`).  The Python source is shallowly embedded: a cube is an
order together with six `order × order` faces of symbols (Python cell
values are strings, so cells are `String`); the global `moveDict` is an
association list with Python-dict insertion semantics; every rotation
is the simultaneous-assignment effect of the source's
snapshot-then-write loops.
-/

namespace CubeSpec

/-- The apostrophe character used as the counter-clockwise marker in
move strings (Python `"'"`). -/
def primeChar : Char := Char.ofNat 39

/-- Fuel-driven decimal rendering of a natural number, most significant
digit first.  Models Python `str(i)` for the non-negative integers that
appear in the source's f-strings. -/
def natCharsAux : Nat → Nat → List Char
  | 0, _ => []
  | fuel + 1, n =>
    if n < 10 then [Char.ofNat (48 + n)]
    else natCharsAux fuel (n / 10) ++ [Char.ofNat (48 + n % 10)]

/-- Decimal rendering of a natural number (the characters of Python
`str(n)`). -/
def natChars (n : Nat) : List Char := natCharsAux (n + 1) n

/-- Reads a digit string back as a number; used only to prove that the
rendering is injective. -/
def valNat (l : List Char) : Nat := l.foldl (fun a c => 10 * a + (c.toNat - 48)) 0

theorem toNat_digitChar (k : Nat) (h : k < 10) : (Char.ofNat (48 + k)).toNat = 48 + k := by
  interval_cases k <;> decide

theorem foldl_natCharsAux (fuel : Nat) : ∀ n a, n < 10 ^ fuel →
    (natCharsAux fuel n).foldl (fun a c => 10 * a + (c.toNat - 48)) a =
      a * 10 ^ (natCharsAux fuel n).length + n := by
  induction fuel with
  | zero =>
    intro n a h
    simp only [pow_zero, Nat.lt_one_iff] at h
    subst h
    simp [natCharsAux]
  | succ fuel ih =>
    intro n a h
    by_cases h10 : n < 10
    · simp [natCharsAux, h10, toNat_digitChar n h10]
      omega
    · have hdiv : n / 10 < 10 ^ fuel := by
        rw [Nat.div_lt_iff_lt_mul (by norm_num)]
        calc n < 10 ^ (fuel + 1) := h
        _ = 10 ^ fuel * 10 := by ring
      simp only [natCharsAux, if_neg h10, List.foldl_append, List.length_append]
      rw [ih (n / 10) a hdiv]
      simp only [List.foldl_cons, List.foldl_nil, List.length_cons, List.length_nil]
      rw [toNat_digitChar (n % 10) (Nat.mod_lt n (by norm_num))]
      have : 48 + n % 10 - 48 = n % 10 := by omega
      rw [this]
      have hmod : 10 * (n / 10) + n % 10 = n := by omega
      ring_nf
      omega

theorem lt_ten_pow_succ (n : Nat) : n < 10 ^ (n + 1) :=
  lt_of_lt_of_le (Nat.lt_pow_self (by norm_num) n)
    (Nat.pow_le_pow_right (by norm_num) (Nat.le_succ n))

theorem valNat_natChars (n : Nat) : valNat (natChars n) = n := by
  have := foldl_natCharsAux (n + 1) n 0 (lt_ten_pow_succ n)
  simpa [valNat, natChars] using this

theorem natChars_inj {m n : Nat} (h : natChars m = natChars n) : m = n := by
  have hm := valNat_natChars m
  have hn := valNat_natChars n
  rw [h, hn] at hm
  omega

theorem natCharsAux_digits (fuel : Nat) : ∀ n c, n < 10 ^ fuel →
    c ∈ natCharsAux fuel n → 48 ≤ c.toNat ∧ c.toNat ≤ 57 := by
  induction fuel with
  | zero =>
    intro n c h hc
    simp only [pow_zero, Nat.lt_one_iff] at h
    subst h
    simp [natCharsAux] at hc
  | succ fuel ih =>
    intro n c h hc
    by_cases h10 : n < 10
    · simp [natCharsAux, h10] at hc
      subst hc
      rw [toNat_digitChar n h10]
      omega
    · have hdiv : n / 10 < 10 ^ fuel := by
        rw [Nat.div_lt_iff_lt_mul (by norm_num)]
        calc n < 10 ^ (fuel + 1) := h
        _ = 10 ^ fuel * 10 := by ring
      simp only [natCharsAux, if_neg h10, List.mem_append, List.mem_singleton] at hc
      rcases hc with hc | hc
      · exact ih (n / 10) c hdiv hc
      · subst hc
        rw [toNat_digitChar (n % 10) (Nat.mod_lt n (by norm_num))]
        have := Nat.mod_lt n (show 0 < 10 by norm_num)
        omega

theorem natChars_digits {n : Nat} {c : Char} (hc : c ∈ natChars n) :
    48 ≤ c.toNat ∧ c.toNat ≤ 57 :=
  natCharsAux_digits (n + 1) n c (lt_ten_pow_succ n) hc

theorem natChars_not_prime {n : Nat} {c : Char} (hc : c ∈ natChars n) : c ≠ primeChar := by
  intro h
  have := natChars_digits hc
  rw [h] at this
  have h39 : primeChar.toNat = 39 := by decide
  rw [h39] at this
  omega

theorem natChars_ne_nil (n : Nat) : natChars n ≠ [] := by
  unfold natChars natCharsAux
  by_cases h10 : n < 10 <;> simp [h10]

/-- Mirrored index `n - 1 - i`, the `n-1-r` / `n-1-which` of the source. -/
def rv {n : Nat} (i : Fin n) : Fin n := ⟨n - 1 - i.val, by have := i.isLt; omega⟩

theorem rv_rv {n : Nat} (i : Fin n) : rv (rv i) = i := by
  apply Fin.ext
  have := i.isLt
  simp only [rv]
  omega

/-- A cube: an order and six `order × order` faces of symbols.  Face
indices follow the source: 0 Front, 1 Top, 2 Back, 3 Down, 4 Left,
5 Right.  Cells are `String` because the Python cells are strings. -/
structure Cube where
  order : Nat
  faces : Fin 6 → Fin order → Fin order → String

/-- The simultaneous effect of the clockwise branch of
`Cube.rotate_LR` (source lines 102-112): the four snapshot-then-write
loops over faces Front, Down, Back, Top at column `which`. -/
def lrCW {n : Nat} (F : Fin 6 → Fin n → Fin n → String) (w : Fin n) :
    Fin 6 → Fin n → Fin n → String := fun f r c =>
  if f = 0 ∧ c = w then F 3 (rv r) (rv w)
  else if f = 3 ∧ c = rv w then F 2 (rv r) (rv w)
  else if f = 2 ∧ c = rv w then F 1 (rv r) w
  else if f = 1 ∧ c = w then F 0 r w
  else F f r c

/-- The simultaneous effect of the counter-clockwise branch of
`Cube.rotate_LR` (source lines 120-129). -/
def lrCCW {n : Nat} (F : Fin 6 → Fin n → Fin n → String) (w : Fin n) :
    Fin 6 → Fin n → Fin n → String := fun f r c =>
  if f = 0 ∧ c = w then F 1 r w
  else if f = 1 ∧ c = w then F 2 (rv r) (rv w)
  else if f = 2 ∧ c = rv w then F 3 (rv r) (rv w)
  else if f = 3 ∧ c = rv w then F 0 (rv r) w
  else F f r c

/-- The simultaneous effect of the clockwise branch of
`Cube.rotate_UD` (source lines 142-151): row `which` cycles through
Front(0) ← Right(5) ← Back(2) ← Left(4) ← old Front. -/
def udCW {n : Nat} (F : Fin 6 → Fin n → Fin n → String) (w : Fin n) :
    Fin 6 → Fin n → Fin n → String := fun f r c =>
  if f = 0 ∧ r = w then F 5 r c
  else if f = 5 ∧ r = w then F 2 r c
  else if f = 2 ∧ r = w then F 4 r c
  else if f = 4 ∧ r = w then F 0 r c
  else F f r c

/-- The simultaneous effect of the counter-clockwise branch of
`Cube.rotate_UD` (source lines 159-168). -/
def udCCW {n : Nat} (F : Fin 6 → Fin n → Fin n → String) (w : Fin n) :
    Fin 6 → Fin n → Fin n → String := fun f r c =>
  if f = 0 ∧ r = w then F 4 r c
  else if f = 4 ∧ r = w then F 2 r c
  else if f = 2 ∧ r = w then F 5 r c
  else if f = 5 ∧ r = w then F 0 r c
  else F f r c

/-- The effect of `Cube._rotate_face` on the face grids: face `fi` is
replaced by its quarter turn (`new[c][n-1-r] = old[r][c]` clockwise,
`new[n-1-c][r] = old[r][c]` otherwise), other faces untouched. -/
def faceRotF {n : Nat} (F : Fin 6 → Fin n → Fin n → String) (fi : Fin 6) (d : Int) :
    Fin 6 → Fin n → Fin n → String := fun f r c =>
  if f = fi then (if d = 1 then F fi (rv c) r else F fi c (rv r)) else F f r c

/-- `Cube._rotate_face(face_idx, direction)`: guard `face_idx` to
`[0, 6)` (silent no-op outside), then quarter-turn that face. -/
def Cube.rotate_face (cube : Cube) (face_idx direction : Int) : Cube :=
  if h : face_idx < 0 ∨ 6 ≤ face_idx then cube
  else { cube with faces := faceRotF cube.faces ⟨face_idx.toNat, by omega⟩ direction }

/-- `Cube.rotate_LR(which, direction)`: guard `which` to `[0, n)`
(silent no-op outside); `direction == 1` takes the clockwise branch,
anything else the counter-clockwise branch; then the side face spins —
Left(4) when `which == 0`, else Right(5) when `which == n-1`. -/
def Cube.rotate_LR (cube : Cube) (which direction : Int) : Cube :=
  if h : which < 0 ∨ (cube.order : Int) ≤ which then cube
  else
    let w : Fin cube.order := ⟨which.toNat, by omega⟩
    if direction = 1 then
      let c1 : Cube := { cube with faces := lrCW cube.faces w }
      if w.val = 0 then c1.rotate_face 4 1
      else if w.val = cube.order - 1 then c1.rotate_face 5 1
      else c1
    else
      let c1 : Cube := { cube with faces := lrCCW cube.faces w }
      if w.val = 0 then c1.rotate_face 4 (-1)
      else if w.val = cube.order - 1 then c1.rotate_face 5 (-1)
      else c1

/-- `Cube.rotate_UD(which, direction)`: same shape as `rotate_LR`, with
the row cycle and with Top(1) spinning when `which == 0`, else Down(3)
when `which == n-1`. -/
def Cube.rotate_UD (cube : Cube) (which direction : Int) : Cube :=
  if h : which < 0 ∨ (cube.order : Int) ≤ which then cube
  else
    let w : Fin cube.order := ⟨which.toNat, by omega⟩
    if direction = 1 then
      let c1 : Cube := { cube with faces := udCW cube.faces w }
      if w.val = 0 then c1.rotate_face 1 1
      else if w.val = cube.order - 1 then c1.rotate_face 3 1
      else c1
    else
      let c1 : Cube := { cube with faces := udCCW cube.faces w }
      if w.val = 0 then c1.rotate_face 1 (-1)
      else if w.val = cube.order - 1 then c1.rotate_face 3 (-1)
      else c1

theorem lrCCW_lrCW {n : Nat} (F : Fin 6 → Fin n → Fin n → String) (w : Fin n) :
    lrCCW (lrCW F w) w = F := by
  funext f r c
  fin_cases f <;>
    by_cases hc : c = w <;> by_cases hc' : c = rv w <;>
      simp_all [lrCW, lrCCW, rv_rv]

theorem lrCW_lrCCW {n : Nat} (F : Fin 6 → Fin n → Fin n → String) (w : Fin n) :
    lrCW (lrCCW F w) w = F := by
  funext f r c
  fin_cases f <;>
    by_cases hc : c = w <;> by_cases hc' : c = rv w <;>
      simp_all [lrCW, lrCCW, rv_rv]

theorem udCCW_udCW {n : Nat} (F : Fin 6 → Fin n → Fin n → String) (w : Fin n) :
    udCCW (udCW F w) w = F := by
  funext f r c
  fin_cases f <;> by_cases hr : r = w <;> simp_all [udCW, udCCW]

theorem udCW_udCCW {n : Nat} (F : Fin 6 → Fin n → Fin n → String) (w : Fin n) :
    udCW (udCCW F w) w = F := by
  funext f r c
  fin_cases f <;> by_cases hr : r = w <;> simp_all [udCW, udCCW]

theorem faceRot_ccw_cw {n : Nat} (F : Fin 6 → Fin n → Fin n → String) (fi : Fin 6) :
    faceRotF (faceRotF F fi 1) fi (-1) = F := by
  funext f r c
  by_cases hf : f = fi <;> simp_all [faceRotF, rv_rv]

theorem faceRot_cw_ccw {n : Nat} (F : Fin 6 → Fin n → Fin n → String) (fi : Fin 6) :
    faceRotF (faceRotF F fi (-1)) fi 1 = F := by
  funext f r c
  by_cases hf : f = fi <;> simp_all [faceRotF, rv_rv]

theorem lrCW_faceRot_comm {n : Nat} (F : Fin 6 → Fin n → Fin n → String) (w : Fin n)
    (fi : Fin 6) (d : Int) (h : 4 ≤ fi.val) :
    lrCW (faceRotF F fi d) w = faceRotF (lrCW F w) fi d := by
  have h0 : fi ≠ 0 := by intro e; subst e; revert h; decide
  have h1 : fi ≠ 1 := by intro e; subst e; revert h; decide
  have h2 : fi ≠ 2 := by intro e; subst e; revert h; decide
  have h3 : fi ≠ 3 := by intro e; subst e; revert h; decide
  funext f r c
  by_cases hf : f = fi <;>
    by_cases hcw : c = w <;> by_cases hcr : c = rv w <;>
      simp_all [lrCW, faceRotF, h0, h1, h2, h3, Ne.symm]

theorem lrCCW_faceRot_comm {n : Nat} (F : Fin 6 → Fin n → Fin n → String) (w : Fin n)
    (fi : Fin 6) (d : Int) (h : 4 ≤ fi.val) :
    lrCCW (faceRotF F fi d) w = faceRotF (lrCCW F w) fi d := by
  have h0 : fi ≠ 0 := by intro e; subst e; revert h; decide
  have h1 : fi ≠ 1 := by intro e; subst e; revert h; decide
  have h2 : fi ≠ 2 := by intro e; subst e; revert h; decide
  have h3 : fi ≠ 3 := by intro e; subst e; revert h; decide
  funext f r c
  by_cases hf : f = fi <;>
    by_cases hcw : c = w <;> by_cases hcr : c = rv w <;>
      simp_all [lrCCW, faceRotF, h0, h1, h2, h3, Ne.symm]

theorem udCW_faceRot_comm {n : Nat} (F : Fin 6 → Fin n → Fin n → String) (w : Fin n)
    (fi : Fin 6) (d : Int) (h : fi = 1 ∨ fi = 3) :
    udCW (faceRotF F fi d) w = faceRotF (udCW F w) fi d := by
  have h0 : fi ≠ 0 := by rcases h with h | h <;> subst h <;> decide
  have h5 : fi ≠ 5 := by rcases h with h | h <;> subst h <;> decide
  have h2 : fi ≠ 2 := by rcases h with h | h <;> subst h <;> decide
  have h4 : fi ≠ 4 := by rcases h with h | h <;> subst h <;> decide
  funext f r c
  by_cases hf : f = fi <;>
    by_cases hrw : r = w <;>
      simp_all [udCW, faceRotF, h0, h5, h2, h4, Ne.symm]

theorem udCCW_faceRot_comm {n : Nat} (F : Fin 6 → Fin n → Fin n → String) (w : Fin n)
    (fi : Fin 6) (d : Int) (h : fi = 1 ∨ fi = 3) :
    udCCW (faceRotF F fi d) w = faceRotF (udCCW F w) fi d := by
  have h0 : fi ≠ 0 := by rcases h with h | h <;> subst h <;> decide
  have h5 : fi ≠ 5 := by rcases h with h | h <;> subst h <;> decide
  have h2 : fi ≠ 2 := by rcases h with h | h <;> subst h <;> decide
  have h4 : fi ≠ 4 := by rcases h with h | h <;> subst h <;> decide
  funext f r c
  by_cases hf : f = fi <;>
    by_cases hrw : r = w <;>
      simp_all [udCCW, faceRotF, h0, h5, h2, h4, Ne.symm]

/-- The `which == 0` / `which == n-1` side-face spin at the end of
`rotate_LR`: Left(4) spins when `which == 0`, else Right(5) when
`which == n-1` (the source's `if`/`elif`). -/
def spinLR {n : Nat} (G : Fin 6 → Fin n → Fin n → String) (w : Fin n) (d : Int) :
    Fin 6 → Fin n → Fin n → String :=
  if w.val = 0 then faceRotF G 4 d
  else if w.val = n - 1 then faceRotF G 5 d
  else G

/-- The side-face spin at the end of `rotate_UD`: Top(1) when
`which == 0`, else Down(3) when `which == n-1`. -/
def spinUD {n : Nat} (G : Fin 6 → Fin n → Fin n → String) (w : Fin n) (d : Int) :
    Fin 6 → Fin n → Fin n → String :=
  if w.val = 0 then faceRotF G 1 d
  else if w.val = n - 1 then faceRotF G 3 d
  else G

theorem rotate_face_eq1 (cube : Cube) (d : Int) :
    cube.rotate_face 1 d = ⟨cube.order, faceRotF cube.faces 1 d⟩ := by
  unfold Cube.rotate_face
  rw [dif_neg (by norm_num)]
  rfl

theorem rotate_face_eq3 (cube : Cube) (d : Int) :
    cube.rotate_face 3 d = ⟨cube.order, faceRotF cube.faces 3 d⟩ := by
  unfold Cube.rotate_face
  rw [dif_neg (by norm_num)]
  rfl

theorem rotate_face_eq4 (cube : Cube) (d : Int) :
    cube.rotate_face 4 d = ⟨cube.order, faceRotF cube.faces 4 d⟩ := by
  unfold Cube.rotate_face
  rw [dif_neg (by norm_num)]
  rfl

theorem rotate_face_eq5 (cube : Cube) (d : Int) :
    cube.rotate_face 5 d = ⟨cube.order, faceRotF cube.faces 5 d⟩ := by
  unfold Cube.rotate_face
  rw [dif_neg (by norm_num)]
  rfl

theorem rotate_LR_eq {n : Nat} (F : Fin 6 → Fin n → Fin n → String) (k : Nat)
    (hk : k < n) (d : Int) :
    Cube.rotate_LR ⟨n, F⟩ (k : Int) d =
      ⟨n, spinLR (if d = 1 then lrCW F ⟨k, hk⟩ else lrCCW F ⟨k, hk⟩) ⟨k, hk⟩
        (if d = 1 then 1 else -1)⟩ := by
  unfold Cube.rotate_LR
  rw [dif_neg (by dsimp only; omega)]
  simp only [Int.toNat_natCast]
  by_cases hd : d = 1 <;>
    simp only [hd, if_pos, if_neg, reduceIte] <;>
    · unfold spinLR
      by_cases h0 : k = 0 <;> by_cases h1 : k = n - 1 <;>
        simp_all [rotate_face_eq4, rotate_face_eq5]

theorem rotate_UD_eq {n : Nat} (F : Fin 6 → Fin n → Fin n → String) (k : Nat)
    (hk : k < n) (d : Int) :
    Cube.rotate_UD ⟨n, F⟩ (k : Int) d =
      ⟨n, spinUD (if d = 1 then udCW F ⟨k, hk⟩ else udCCW F ⟨k, hk⟩) ⟨k, hk⟩
        (if d = 1 then 1 else -1)⟩ := by
  unfold Cube.rotate_UD
  rw [dif_neg (by dsimp only; omega)]
  simp only [Int.toNat_natCast]
  by_cases hd : d = 1 <;>
    simp only [hd, if_pos, if_neg, reduceIte] <;>
    · unfold spinUD
      by_cases h0 : k = 0 <;> by_cases h1 : k = n - 1 <;>
        simp_all [rotate_face_eq1, rotate_face_eq3]

theorem spin_lr_inv_cw {n : Nat} (F : Fin 6 → Fin n → Fin n → String) (w : Fin n) :
    spinLR (lrCCW (spinLR (lrCW F w) w 1) w) w (-1) = F := by
  unfold spinLR
  by_cases h0 : w.val = 0
  · simp only [if_pos h0]
    rw [lrCCW_faceRot_comm _ _ 4 1 (by decide), faceRot_ccw_cw, lrCCW_lrCW]
  · by_cases h1 : w.val = n - 1
    · simp only [if_neg h0, if_pos h1]
      rw [lrCCW_faceRot_comm _ _ 5 1 (by decide), faceRot_ccw_cw, lrCCW_lrCW]
    · simp only [if_neg h0, if_neg h1]
      rw [lrCCW_lrCW]

theorem spin_lr_inv_ccw {n : Nat} (F : Fin 6 → Fin n → Fin n → String) (w : Fin n) :
    spinLR (lrCW (spinLR (lrCCW F w) w (-1)) w) w 1 = F := by
  unfold spinLR
  by_cases h0 : w.val = 0
  · simp only [if_pos h0]
    rw [lrCW_faceRot_comm _ _ 4 (-1) (by decide), faceRot_cw_ccw, lrCW_lrCCW]
  · by_cases h1 : w.val = n - 1
    · simp only [if_neg h0, if_pos h1]
      rw [lrCW_faceRot_comm _ _ 5 (-1) (by decide), faceRot_cw_ccw, lrCW_lrCCW]
    · simp only [if_neg h0, if_neg h1]
      rw [lrCW_lrCCW]

theorem spin_ud_inv_cw {n : Nat} (F : Fin 6 → Fin n → Fin n → String) (w : Fin n) :
    spinUD (udCCW (spinUD (udCW F w) w 1) w) w (-1) = F := by
  unfold spinUD
  by_cases h0 : w.val = 0
  · simp only [if_pos h0]
    rw [udCCW_faceRot_comm _ _ 1 1 (by decide), faceRot_ccw_cw, udCCW_udCW]
  · by_cases h1 : w.val = n - 1
    · simp only [if_neg h0, if_pos h1]
      rw [udCCW_faceRot_comm _ _ 3 1 (by decide), faceRot_ccw_cw, udCCW_udCW]
    · simp only [if_neg h0, if_neg h1]
      rw [udCCW_udCW]

theorem spin_ud_inv_ccw {n : Nat} (F : Fin 6 → Fin n → Fin n → String) (w : Fin n) :
    spinUD (udCW (spinUD (udCCW F w) w (-1)) w) w 1 = F := by
  unfold spinUD
  by_cases h0 : w.val = 0
  · simp only [if_pos h0]
    rw [udCW_faceRot_comm _ _ 1 (-1) (by decide), faceRot_cw_ccw, udCW_udCCW]
  · by_cases h1 : w.val = n - 1
    · simp only [if_neg h0, if_pos h1]
      rw [udCW_faceRot_comm _ _ 3 (-1) (by decide), faceRot_cw_ccw, udCW_udCCW]
    · simp only [if_neg h0, if_neg h1]
      rw [udCW_udCCW]

theorem rotate_LR_inv (cube : Cube) (which d : Int) (hd : d = 1 ∨ d = -1) :
    (cube.rotate_LR which d).rotate_LR which (-d) = cube := by
  obtain ⟨n, F⟩ := cube
  by_cases hg : which < 0 ∨ (n : Int) ≤ which
  · have h1 : ∀ d', Cube.rotate_LR ⟨n, F⟩ which d' = ⟨n, F⟩ := by
      intro d'
      unfold Cube.rotate_LR
      rw [dif_pos hg]
    rw [h1, h1]
  · push_neg at hg
    obtain ⟨hg0, hgn⟩ := hg
    have hw : which.toNat < n := by omega
    have hwc : which = ((which.toNat : Nat) : Int) := by omega
    rw [hwc]
    rcases hd with hd | hd <;> subst hd
    · rw [rotate_LR_eq F which.toNat hw 1]
      simp only [eq_self_iff_true, if_true]
      rw [show (-(1 : Int)) = -1 from rfl, rotate_LR_eq _ which.toNat hw (-1)]
      simp only [if_neg (show ¬(-1 : Int) = 1 by decide)]
      rw [spin_lr_inv_cw]
    · rw [rotate_LR_eq F which.toNat hw (-1)]
      simp only [if_neg (show ¬(-1 : Int) = 1 by decide)]
      rw [show (-(-1 : Int)) = 1 from rfl, rotate_LR_eq _ which.toNat hw 1]
      simp only [eq_self_iff_true, if_true]
      rw [spin_lr_inv_ccw]

theorem rotate_UD_inv (cube : Cube) (which d : Int) (hd : d = 1 ∨ d = -1) :
    (cube.rotate_UD which d).rotate_UD which (-d) = cube := by
  obtain ⟨n, F⟩ := cube
  by_cases hg : which < 0 ∨ (n : Int) ≤ which
  · have h1 : ∀ d', Cube.rotate_UD ⟨n, F⟩ which d' = ⟨n, F⟩ := by
      intro d'
      unfold Cube.rotate_UD
      rw [dif_pos hg]
    rw [h1, h1]
  · push_neg at hg
    obtain ⟨hg0, hgn⟩ := hg
    have hw : which.toNat < n := by omega
    have hwc : which = ((which.toNat : Nat) : Int) := by omega
    rw [hwc]
    rcases hd with hd | hd <;> subst hd
    · rw [rotate_UD_eq F which.toNat hw 1]
      simp only [eq_self_iff_true, if_true]
      rw [show (-(1 : Int)) = -1 from rfl, rotate_UD_eq _ which.toNat hw (-1)]
      simp only [if_neg (show ¬(-1 : Int) = 1 by decide)]
      rw [spin_ud_inv_cw]
    · rw [rotate_UD_eq F which.toNat hw (-1)]
      simp only [if_neg (show ¬(-1 : Int) = 1 by decide)]
      rw [show (-(-1 : Int)) = 1 from rfl, rotate_UD_eq _ which.toNat hw 1]
      simp only [eq_self_iff_true, if_true]
      rw [spin_ud_inv_ccw]

theorem rotate_face_inv (cube : Cube) (face_idx d : Int) (hd : d = 1 ∨ d = -1) :
    (cube.rotate_face face_idx d).rotate_face face_idx (-d) = cube := by
  obtain ⟨n, F⟩ := cube
  by_cases hg : face_idx < 0 ∨ 6 ≤ face_idx
  · have h1 : ∀ d', Cube.rotate_face ⟨n, F⟩ face_idx d' = ⟨n, F⟩ := by
      intro d'
      unfold Cube.rotate_face
      rw [dif_pos hg]
    rw [h1, h1]
  · have heq : ∀ (G : Fin 6 → Fin n → Fin n → String) d',
        Cube.rotate_face ⟨n, G⟩ face_idx d' =
          ⟨n, faceRotF G ⟨face_idx.toNat, by omega⟩ d'⟩ := by
      intro G d'
      unfold Cube.rotate_face
      rw [dif_neg hg]
    rcases hd with hd | hd <;> subst hd
    · rw [heq, heq]
      rw [show Cube.mk n (faceRotF (faceRotF F ⟨face_idx.toNat, by omega⟩ 1)
        ⟨face_idx.toNat, by omega⟩ (-1)) = ⟨n, F⟩ from by rw [faceRot_ccw_cw]]
    · rw [heq]
      rw [show (-(-1 : Int)) = 1 from rfl, heq]
      rw [show Cube.mk n (faceRotF (faceRotF F ⟨face_idx.toNat, by omega⟩ (-1))
        ⟨face_idx.toNat, by omega⟩ 1) = ⟨n, F⟩ from by rw [faceRot_cw_ccw]]

theorem fidx_lt {n i : Nat} (h : i < 6 * n * n) : i / (n * n) < 6 := by
  rcases Nat.eq_zero_or_pos (n * n) with h0 | h0
  · rw [show 6 * n * n = 6 * (n * n) from by ring, h0] at h
    omega
  · rw [Nat.div_lt_iff_lt_mul h0]
    calc i < 6 * n * n := h
    _ = 6 * (n * n) := by ring

theorem ridx_lt {n i : Nat} (h : i < 6 * n * n) : i % (n * n) / n < n := by
  rcases Nat.eq_zero_or_pos n with h0 | h0
  · subst h0
    omega
  · rw [Nat.div_lt_iff_lt_mul h0]
    exact Nat.mod_lt i (by positivity)

theorem cidx_lt {n i : Nat} (h : i < 6 * n * n) : i % n < n := by
  rcases Nat.eq_zero_or_pos n with h0 | h0
  · subst h0
    omega
  · exact Nat.mod_lt i h0

/-- `Cube._faces_to_linear`: the triple loop over faces, rows, columns
appends the cells in lexicographic index order, so the resulting list
has the cell of face `i / n²`, row `(i % n²) / n`, column `i % n` at
position `i`. -/
def Cube.toLinear (cube : Cube) : List String :=
  List.ofFn fun i : Fin (6 * cube.order * cube.order) =>
    cube.faces ⟨i.val / (cube.order * cube.order), fidx_lt i.isLt⟩
      ⟨i.val % (cube.order * cube.order) / cube.order, ridx_lt i.isLt⟩
      ⟨i.val % cube.order, cidx_lt i.isLt⟩

/-- `Cube._linear_to_faces`: the cell at face `f`, row `r`, column `c`
receives the input symbol at linear index `f·n² + r·n + c` when that
index is within the input, and stays at the empty sentinel `""`
otherwise (short input leaves cells empty, long input is truncated by
the `face_idx >= 6` break). -/
def linearToFaces (n : Nat) (data : List String) : Fin 6 → Fin n → Fin n → String :=
  fun f r c =>
    let idx := f.val * (n * n) + r.val * n + c.val
    if h : idx < data.length then data.get ⟨idx, h⟩ else ""

/-- `Cube.__init__(order, cube_data)`: build a cube of the given order
from a linear symbol list (the `cube_data` branch; the empty-`cube_data`
branch produces all-`""` faces, which is what `linearToFaces` gives on
an empty list). -/
def Cube.init (order : Nat) (data : List String) : Cube :=
  ⟨order, linearToFaces order data⟩

theorem toLinear_length (cube : Cube) :
    cube.toLinear.length = 6 * cube.order * cube.order := by
  simp [Cube.toLinear]

theorem idx_div (n f r c : Nat) (hf : f < 6) (hr : r < n) (hc : c < n) :
    (f * (n * n) + r * n + c) / (n * n) = f := by
  have hrc : r * n + c < n * n := by
    calc r * n + c < r * n + n := by omega
    _ = (r + 1) * n := by ring
    _ ≤ n * n := Nat.mul_le_mul_right n hr
  have h0 : 0 < n * n := by
    rcases Nat.eq_zero_or_pos n with h | h
    · omega
    · positivity
  rw [show f * (n * n) + r * n + c = n * n * f + (r * n + c) from by ring,
    Nat.mul_add_div h0, Nat.div_eq_of_lt hrc]
  omega

theorem idx_mod_div (n f r c : Nat) (hf : f < 6) (hr : r < n) (hc : c < n) :
    (f * (n * n) + r * n + c) % (n * n) / n = r := by
  have hrc : r * n + c < n * n := by
    calc r * n + c < r * n + n := by omega
    _ = (r + 1) * n := by ring
    _ ≤ n * n := Nat.mul_le_mul_right n hr
  have h0 : 0 < n := by omega
  rw [show f * (n * n) + r * n + c = n * n * f + (r * n + c) from by ring,
    Nat.mul_add_mod, Nat.mod_eq_of_lt hrc,
    show r * n + c = n * r + c from by ring, Nat.mul_add_div h0,
    Nat.div_eq_of_lt hc]
  omega

theorem idx_mod (n f r c : Nat) (hf : f < 6) (hr : r < n) (hc : c < n) :
    (f * (n * n) + r * n + c) % n = c := by
  rw [show f * (n * n) + r * n + c = n * (f * n + r) + c from by ring,
    Nat.mul_add_mod, Nat.mod_eq_of_lt hc]

theorem init_toLinear (cube : Cube) : Cube.init cube.order cube.toLinear = cube := by
  obtain ⟨n, F⟩ := cube
  unfold Cube.init
  congr 1
  funext f r c
  unfold linearToFaces
  have hf : f.val < 6 := f.isLt
  have hr : r.val < n := r.isLt
  have hc : c.val < n := c.isLt
  have hidx : f.val * (n * n) + r.val * n + c.val < 6 * n * n := by
    have hrc : r.val * n + c.val < n * n := by
      calc r.val * n + c.val < r.val * n + n := by omega
      _ = (r.val + 1) * n := by ring
      _ ≤ n * n := Nat.mul_le_mul_right n hr
    calc f.val * (n * n) + r.val * n + c.val < f.val * (n * n) + n * n := by omega
    _ = (f.val + 1) * (n * n) := by ring
    _ ≤ 6 * (n * n) := Nat.mul_le_mul_right (n * n) hf
    _ = 6 * n * n := by ring
  have hlen : (Cube.toLinear ⟨n, F⟩).length = 6 * n * n := toLinear_length _
  rw [dif_pos (by rw [hlen]; exact hidx)]
  show (Cube.toLinear ⟨n, F⟩)[f.val * (n * n) + r.val * n + c.val] = F f r c
  unfold Cube.toLinear
  rw [List.getElem_ofFn]
  dsimp only
  congr 1
  · exact Fin.ext (idx_div n f.val r.val c.val hf hr hc)
  · exact Fin.ext (idx_mod_div n f.val r.val c.val hf hr hc)
  · exact Fin.ext (idx_mod n f.val r.val c.val hf hr hc)

/-- The move key `f"{fam}{k}"` (plus a trailing apostrophe when `pr`),
as the character list of the Python string. -/
def moveKey (fam : Char) (k : Nat) (pr : Bool) : List Char :=
  fam :: (natChars k ++ (if pr then [primeChar] else []))

/-- The initial `moveDict` literal of the source (lines 39-42): the
eight order-1 moves. -/
def moveDict0 : List (List Char × Nat × Int) :=
  [(['L', '1'], 0, 1), (['L', '1', primeChar], 0, -1),
   (['R', '1'], 1, 1), (['R', '1', primeChar], 1, -1),
   (['U', '1'], 2, 1), (['U', '1', primeChar], 2, -1),
   (['D', '1'], 3, 1), (['D', '1', primeChar], 3, -1)]

/-- One Python dict assignment `moveDict[key] = v`: overwrite the value
in place when the key is present, append a new entry otherwise. -/
def dictInsert (tbl : List (List Char × Nat × Int)) (key : List Char) (v : Nat × Int) :
    List (List Char × Nat × Int) :=
  if tbl.any (fun e => e.1 == key) then
    tbl.map (fun e => if e.1 == key then (key, v) else e)
  else tbl ++ [(key, v)]

/-- The body of the `generate_moves` loop for one `i`: the eight dict
assignments with `layer = i * 2` (source lines 48-57). -/
def genStep (tbl : List (List Char × Nat × Int)) (i : Nat) :
    List (List Char × Nat × Int) :=
  let t1 := dictInsert tbl (moveKey 'L' (i + 1) false) (2 * i, 1)
  let t2 := dictInsert t1 (moveKey 'L' (i + 1) true) (2 * i, -1)
  let t3 := dictInsert t2 (moveKey 'R' (i + 1) false) (2 * i + 1, 1)
  let t4 := dictInsert t3 (moveKey 'R' (i + 1) true) (2 * i + 1, -1)
  let t5 := dictInsert t4 (moveKey 'U' (i + 1) false) (2 * i + 2, 1)
  let t6 := dictInsert t5 (moveKey 'U' (i + 1) true) (2 * i + 2, -1)
  let t7 := dictInsert t6 (moveKey 'D' (i + 1) false) (2 * i + 3, 1)
  dictInsert t7 (moveKey 'D' (i + 1) true) (2 * i + 3, -1)

/-- `generate_moves(order)` run on the initial `moveDict`: the final
state of the global dictionary. -/
def generate_moves (order : Nat) : List (List Char × Nat × Int) :=
  (List.range order).foldl genStep moveDict0

/-- The eight entries the `generate_moves` loop writes for index `i`. -/
def genOctet (i : Nat) : List (List Char × Nat × Int) :=
  [(moveKey 'L' (i + 1) false, 2 * i, 1), (moveKey 'L' (i + 1) true, 2 * i, -1),
   (moveKey 'R' (i + 1) false, 2 * i + 1, 1), (moveKey 'R' (i + 1) true, 2 * i + 1, -1),
   (moveKey 'U' (i + 1) false, 2 * i + 2, 1), (moveKey 'U' (i + 1) true, 2 * i + 2, -1),
   (moveKey 'D' (i + 1) false, 2 * i + 3, 1), (moveKey 'D' (i + 1) true, 2 * i + 3, -1)]

/-- The flat (append-only) view of the generated dictionary. -/
def flatTable (N : Nat) : List (List Char × Nat × Int) :=
  (List.range N).flatMap genOctet

theorem moveKey_inj {f1 f2 : Char} {k1 k2 : Nat} {p1 p2 : Bool}
    (h : moveKey f1 k1 p1 = moveKey f2 k2 p2) : f1 = f2 ∧ k1 = k2 ∧ p1 = p2 := by
  unfold moveKey at h
  injection h with hf ht
  refine ⟨hf, ?_⟩
  cases p1 <;> cases p2 <;> simp only [if_pos, if_neg, Bool.false_eq_true,
    List.append_nil, reduceIte] at ht
  · exact ⟨natChars_inj ht, rfl⟩
  · exfalso
    have hp : primeChar ∈ natChars k1 := by
      rw [ht]
      simp
    exact natChars_not_prime hp rfl
  · exfalso
    have hp : primeChar ∈ natChars k2 := by
      rw [← ht]
      simp
    exact natChars_not_prime hp rfl
  · exact ⟨natChars_inj (List.append_cancel_right ht), rfl⟩

theorem moveKey_ne {f1 f2 : Char} {k1 k2 : Nat} {p1 p2 : Bool}
    (h : f1 ≠ f2 ∨ p1 ≠ p2 ∨ k1 ≠ k2) : moveKey f1 k1 p1 ≠ moveKey f2 k2 p2 := by
  intro he
  have := moveKey_inj he
  tauto

theorem octet_keys (i : Nat) : (genOctet i).map Prod.fst =
    [('L', false), ('L', true), ('R', false), ('R', true),
     ('U', false), ('U', true), ('D', false), ('D', true)].map
      (fun fp => moveKey fp.1 (i + 1) fp.2) := rfl

theorem octet_keys_nodup (i : Nat) : ((genOctet i).map Prod.fst).Nodup := by
  rw [octet_keys]
  refine List.Nodup.map ?_ (by decide)
  intro a b hab
  have h := moveKey_inj hab
  exact Prod.ext h.1 h.2.2

theorem flatTable_succ (N : Nat) : flatTable (N + 1) = flatTable N ++ genOctet N := by
  unfold flatTable
  rw [List.range_succ, List.flatMap_append]
  simp

theorem mem_flatTable {e : List Char × Nat × Int} {N : Nat} :
    e ∈ flatTable N ↔ ∃ i, i < N ∧ e ∈ genOctet i := by
  simp [flatTable, List.mem_flatMap, List.mem_range]

theorem fresh_key (N : Nat) (f : Char) (p : Bool) (k : Nat) (hk : N < k) :
    moveKey f k p ∉ (flatTable N).map Prod.fst := by
  intro hmem
  rw [List.mem_map] at hmem
  obtain ⟨e, he, hkey⟩ := hmem
  rw [mem_flatTable] at he
  obtain ⟨i, hi, hei⟩ := he
  simp only [genOctet, List.mem_cons, List.not_mem_nil, or_false] at hei
  rcases hei with h' | h' | h' | h' | h' | h' | h' | h' <;>
    · subst h'
      have := (moveKey_inj hkey).2.1
      omega

theorem flat_keys_nodup (N : Nat) : ((flatTable N).map Prod.fst).Nodup := by
  induction N with
  | zero => simp [flatTable]
  | succ N ih =>
    rw [flatTable_succ, List.map_append]
    refine List.Nodup.append ih (octet_keys_nodup N) ?_
    rw [List.disjoint_left]
    intro a ha hoct
    rw [octet_keys, List.mem_map] at hoct
    obtain ⟨fp, _, rfl⟩ := hoct
    exact fresh_key N fp.1 fp.2 (N + 1) (by omega) ha

theorem notin_keys_append {k : List Char} {tbl l : List (List Char × Nat × Int)}
    (h1 : k ∉ tbl.map Prod.fst) (h2 : ∀ e ∈ l, k ≠ e.1) :
    k ∉ (tbl ++ l).map Prod.fst := by
  rw [List.map_append]
  intro hm
  rcases List.mem_append.1 hm with hm' | hm'
  · exact h1 hm'
  · rcases List.mem_map.1 hm' with ⟨e, he, heq⟩
    exact h2 e he heq.symm

theorem dictInsert_append (tbl : List (List Char × Nat × Int)) (key : List Char)
    (v : Nat × Int) (h : key ∉ tbl.map Prod.fst) :
    dictInsert tbl key v = tbl ++ [(key, v)] := by
  unfold dictInsert
  rw [if_neg ?_]
  simp only [List.any_eq_true, beq_iff_eq, not_exists]
  intro e
  rintro ⟨he, heq⟩
  exact h (List.mem_map.2 ⟨e, he, heq⟩)

theorem dictInsert_self (tbl : List (List Char × Nat × Int)) (key : List Char)
    (v : Nat × Int) (hnd : (tbl.map Prod.fst).Nodup) (hmem : (key, v) ∈ tbl) :
    dictInsert tbl key v = tbl := by
  unfold dictInsert
  rw [if_pos ?_]
  · conv_rhs => rw [← List.map_id tbl]
    apply List.map_congr_left
    intro e he
    by_cases hk : e.1 = key
    · have : e = (key, v) := by
        refine List.inj_on_of_nodup_map hnd he hmem ?_
        simp [hk]
      rw [this]
      simp
    · simp [hk]
  · simp only [List.any_eq_true, beq_iff_eq]
    exact ⟨(key, v), hmem, rfl⟩

theorem genStep_eq (tbl : List (List Char × Nat × Int)) (i : Nat)
    (h : ∀ f p, moveKey f (i + 1) p ∉ tbl.map Prod.fst) :
    genStep tbl i = tbl ++ genOctet i := by
  unfold genStep
  dsimp only
  rw [dictInsert_append _ _ _ (h 'L' false)]
  rw [dictInsert_append _ _ _ (notin_keys_append (h 'L' true) (by
    intro e he
    simp only [List.mem_singleton] at he
    subst he
    exact moveKey_ne (Or.inr (Or.inl (by decide)))))]
  rw [dictInsert_append _ _ _ (notin_keys_append (notin_keys_append (h 'R' false) (by
    intro e he
    simp only [List.mem_singleton] at he
    subst he
    exact moveKey_ne (Or.inl (by decide)))) (by
    intro e he
    simp only [List.mem_singleton] at he
    subst he
    exact moveKey_ne (Or.inl (by decide))))]
  rw [dictInsert_append _ _ _ (notin_keys_append (notin_keys_append (notin_keys_append (h 'R' true) (by
    intro e he
    simp only [List.mem_singleton] at he
    subst he
    exact moveKey_ne (Or.inl (by decide)))) (by
    intro e he
    simp only [List.mem_singleton] at he
    subst he
    exact moveKey_ne (Or.inl (by decide)))) (by
    intro e he
    simp only [List.mem_singleton] at he
    subst he
    exact moveKey_ne (Or.inr (Or.inl (by decide)))))]
  rw [dictInsert_append _ _ _ (notin_keys_append (notin_keys_append (notin_keys_append (notin_keys_append (h 'U' false) (by
    intro e he
    simp only [List.mem_singleton] at he
    subst he
    exact moveKey_ne (Or.inl (by decide)))) (by
    intro e he
    simp only [List.mem_singleton] at he
    subst he
    exact moveKey_ne (Or.inl (by decide)))) (by
    intro e he
    simp only [List.mem_singleton] at he
    subst he
    exact moveKey_ne (Or.inl (by decide)))) (by
    intro e he
    simp only [List.mem_singleton] at he
    subst he
    exact moveKey_ne (Or.inl (by decide))))]
  rw [dictInsert_append _ _ _ (notin_keys_append (notin_keys_append (notin_keys_append (notin_keys_append (notin_keys_append (h 'U' true) (by
    intro e he
    simp only [List.mem_singleton] at he
    subst he
    exact moveKey_ne (Or.inl (by decide)))) (by
    intro e he
    simp only [List.mem_singleton] at he
    subst he
    exact moveKey_ne (Or.inl (by decide)))) (by
    intro e he
    simp only [List.mem_singleton] at he
    subst he
    exact moveKey_ne (Or.inl (by decide)))) (by
    intro e he
    simp only [List.mem_singleton] at he
    subst he
    exact moveKey_ne (Or.inl (by decide)))) (by
    intro e he
    simp only [List.mem_singleton] at he
    subst he
    exact moveKey_ne (Or.inr (Or.inl (by decide)))))]
  rw [dictInsert_append _ _ _ (notin_keys_append (notin_keys_append (notin_keys_append (notin_keys_append (notin_keys_append (notin_keys_append (h 'D' false) (by
    intro e he
    simp only [List.mem_singleton] at he
    subst he
    exact moveKey_ne (Or.inl (by decide)))) (by
    intro e he
    simp only [List.mem_singleton] at he
    subst he
    exact moveKey_ne (Or.inl (by decide)))) (by
    intro e he
    simp only [List.mem_singleton] at he
    subst he
    exact moveKey_ne (Or.inl (by decide)))) (by
    intro e he
    simp only [List.mem_singleton] at he
    subst he
    exact moveKey_ne (Or.inl (by decide)))) (by
    intro e he
    simp only [List.mem_singleton] at he
    subst he
    exact moveKey_ne (Or.inl (by decide)))) (by
    intro e he
    simp only [List.mem_singleton] at he
    subst he
    exact moveKey_ne (Or.inl (by decide))))]
  rw [dictInsert_append _ _ _ (notin_keys_append (notin_keys_append (notin_keys_append (notin_keys_append (notin_keys_append (notin_keys_append (notin_keys_append (h 'D' true) (by
    intro e he
    simp only [List.mem_singleton] at he
    subst he
    exact moveKey_ne (Or.inl (by decide)))) (by
    intro e he
    simp only [List.mem_singleton] at he
    subst he
    exact moveKey_ne (Or.inl (by decide)))) (by
    intro e he
    simp only [List.mem_singleton] at he
    subst he
    exact moveKey_ne (Or.inl (by decide)))) (by
    intro e he
    simp only [List.mem_singleton] at he
    subst he
    exact moveKey_ne (Or.inl (by decide)))) (by
    intro e he
    simp only [List.mem_singleton] at he
    subst he
    exact moveKey_ne (Or.inl (by decide)))) (by
    intro e he
    simp only [List.mem_singleton] at he
    subst he
    exact moveKey_ne (Or.inl (by decide)))) (by
    intro e he
    simp only [List.mem_singleton] at he
    subst he
    exact moveKey_ne (Or.inr (Or.inl (by decide)))))]
  simp [genOctet, List.append_assoc]

theorem moveDict0_eq : moveDict0 = genOctet 0 := by decide

theorem moveDict0_keys_nodup : (moveDict0.map Prod.fst).Nodup := by decide

theorem genStep_dict0 : genStep moveDict0 0 = moveDict0 := by
  unfold genStep
  dsimp only
  rw [dictInsert_self _ _ _ moveDict0_keys_nodup (by decide)]
  rw [dictInsert_self _ _ _ moveDict0_keys_nodup (by decide)]
  rw [dictInsert_self _ _ _ moveDict0_keys_nodup (by decide)]
  rw [dictInsert_self _ _ _ moveDict0_keys_nodup (by decide)]
  rw [dictInsert_self _ _ _ moveDict0_keys_nodup (by decide)]
  rw [dictInsert_self _ _ _ moveDict0_keys_nodup (by decide)]
  rw [dictInsert_self _ _ _ moveDict0_keys_nodup (by decide)]
  rw [dictInsert_self _ _ _ moveDict0_keys_nodup (by decide)]

theorem flatTable_one : flatTable 1 = genOctet 0 := by
  unfold flatTable
  rw [show List.range 1 = [0] from rfl]
  simp

theorem generate_moves_flat (N : Nat) (hN : 1 ≤ N) : generate_moves N = flatTable N := by
  induction N with
  | zero => omega
  | succ N ih =>
    rcases Nat.eq_zero_or_pos N with h0 | hpos
    · subst h0
      show (List.range 1).foldl genStep moveDict0 = flatTable 1
      rw [show List.range 1 = [0] from rfl]
      simp only [List.foldl_cons, List.foldl_nil]
      rw [genStep_dict0, flatTable_one, moveDict0_eq]
    · have ih' := ih hpos
      show (List.range (N + 1)).foldl genStep moveDict0 = flatTable (N + 1)
      rw [List.range_succ, List.foldl_append]
      simp only [List.foldl_cons, List.foldl_nil]
      have : (List.range N).foldl genStep moveDict0 = flatTable N := ih'
      rw [this]
      rw [genStep_eq (flatTable N) N (fun f p => fresh_key N f p (N + 1) (by omega))]
      exact (flatTable_succ N).symm

theorem generate_moves_eq (n : Nat) : generate_moves n = flatTable (max n 1) := by
  rcases Nat.eq_zero_or_pos n with h0 | hpos
  · subst h0
    show (List.range 0).foldl genStep moveDict0 = flatTable (max 0 1)
    simp only [List.range_zero, List.foldl_nil]
    rw [show max 0 1 = 1 from rfl, flatTable_one, moveDict0_eq]
  · rw [generate_moves_flat n hpos, Nat.max_eq_left hpos]

theorem genOctet_length (i : Nat) : (genOctet i).length = 8 := rfl

theorem flatTable_length (N : Nat) : (flatTable N).length = 8 * N := by
  induction N with
  | zero => rfl
  | succ N ih =>
    rw [flatTable_succ, List.length_append, ih, genOctet_length]
    ring

/-- The dictionary lookup `moveDict[move]` guarded by
`move in moveDict` in `applyMoves`: `none` when the key is absent. -/
def lookupMove (tbl : List (List Char × Nat × Int)) (m : List Char) : Option (Nat × Int) :=
  (tbl.find? (fun e => e.1 == m)).map Prod.snd

theorem lookupMove_eq_some {tbl : List (List Char × Nat × Int)}
    {e : List Char × Nat × Int} (hnd : (tbl.map Prod.fst).Nodup) (he : e ∈ tbl) :
    lookupMove tbl e.1 = some e.2 := by
  induction tbl with
  | nil => simp at he
  | cons a t ih =>
    rw [List.map_cons, List.nodup_cons] at hnd
    rcases List.mem_cons.1 he with rfl | het
    · unfold lookupMove
      rw [List.find?_cons_of_pos _ (by simp)]
      rfl
    · by_cases hae : a.1 = e.1
      · exfalso
        apply hnd.1
        rw [hae]
        exact List.mem_map.2 ⟨e, het, rfl⟩
      · unfold lookupMove
        rw [List.find?_cons_of_neg _ (by simpa using hae)]
        exact ih hnd.2 het

theorem lookupMove_mem {tbl : List (List Char × Nat × Int)} {m : List Char}
    {v : Nat × Int} (h : lookupMove tbl m = some v) : (m, v) ∈ tbl := by
  unfold lookupMove at h
  cases hfind : tbl.find? (fun e => e.1 == m) with
  | none => rw [hfind] at h; simp at h
  | some e =>
    rw [hfind] at h
    have hv : e.2 = v := by simpa using h
    have h1 := List.find?_some hfind
    have h2 : e ∈ tbl := List.mem_of_find?_eq_some hfind
    have he : e = (m, v) := Prod.ext (by simpa using h1) hv
    rw [← he]
    exact h2

theorem lookupMove_none_iff {tbl : List (List Char × Nat × Int)} {m : List Char} :
    lookupMove tbl m = none ↔ m ∉ tbl.map Prod.fst := by
  unfold lookupMove
  constructor
  · intro h hm
    rcases List.mem_map.1 hm with ⟨e, he, heq⟩
    cases hfind : tbl.find? (fun e => e.1 == m) with
    | none =>
      rw [List.find?_eq_none] at hfind
      exact hfind e he (by simpa using heq)
    | some x =>
      rw [hfind] at h
      simp at h
  · intro h
    cases hfind : tbl.find? (fun e => e.1 == m) with
    | none => rfl
    | some x =>
      exfalso
      have h1 := List.find?_some hfind
      have h2 := List.mem_of_find?_eq_some hfind
      exact h (List.mem_map.2 ⟨x, h2, by simpa using h1⟩)

/-- The inverse of one move in `decryptCube`: strip a trailing
apostrophe, or append one (Python `move[:-1]` / `move + "'"` after
`move.endswith("'")`). -/
def revMove (m : List Char) : List Char :=
  if m.getLast? = some primeChar then m.dropLast else m ++ [primeChar]

theorem getLast?_mem_of_eq : ∀ {l : List Char} {x : Char}, l.getLast? = some x → x ∈ l := by
  intro l
  induction l with
  | nil => simp
  | cons a t ih =>
    intro x h
    cases ht : t.getLast? with
    | none =>
      have ht' : t = [] := by
        by_cases he : t = []
        · exact he
        · exfalso
          have hs := List.getLast?_isSome.2 he
          rw [ht] at hs
          simp at hs
      subst ht'
      simp at h
      simp [h]
    | some y =>
      rw [List.getLast?_cons, ht] at h
      simp only [Option.getD_some, Option.some.injEq] at h
      subst h
      exact List.mem_cons_of_mem a (ih ht)

theorem moveKey_false_eq (f : Char) (k : Nat) : moveKey f k false = f :: natChars k := by
  simp [moveKey]

theorem revMove_key_false (f : Char) (k : Nat) :
    revMove (moveKey f k false) = moveKey f k true := by
  have hne := natChars_ne_nil k
  obtain ⟨y, hy⟩ := Option.isSome_iff_exists.1 (List.getLast?_isSome.2 hne)
  have hkey : (moveKey f k false).getLast? = some y := by
    rw [moveKey_false_eq, List.getLast?_cons, hy]
    simp
  unfold revMove
  rw [if_neg ?_]
  · show moveKey f k false ++ [primeChar] = moveKey f k true
    simp [moveKey]
  · rw [hkey]
    intro hcon
    have hyp : y = primeChar := by injection hcon
    exact natChars_not_prime (getLast?_mem_of_eq hy) hyp

theorem revMove_key_true (f : Char) (k : Nat) :
    revMove (moveKey f k true) = moveKey f k false := by
  have hsplit : moveKey f k true = (moveKey f k false) ++ [primeChar] := by
    simp [moveKey]
  rw [hsplit]
  unfold revMove
  rw [if_pos (List.getLast?_concat _), List.dropLast_concat]

theorem lookup_octet {N i : Nat} (key : List Char) (v : Nat × Int)
    (hi : i < N) (he : (key, v) ∈ genOctet i) :
    lookupMove (flatTable N) key = some v :=
  lookupMove_eq_some (flat_keys_nodup N) (mem_flatTable.2 ⟨i, hi, he⟩)

theorem lookup_pair {N : Nat} {m : List Char} {l : Nat} {d : Int}
    (h : lookupMove (flatTable N) m = some (l, d)) :
    lookupMove (flatTable N) (revMove m) = some (l, -d) ∧ (d = 1 ∨ d = -1) := by
  have hmem := lookupMove_mem h
  rw [mem_flatTable] at hmem
  obtain ⟨i, hi, hoct⟩ := hmem
  simp only [genOctet, List.mem_cons, List.not_mem_nil, or_false,
    Prod.mk.injEq] at hoct
  rcases hoct with ⟨hm, hl, hd⟩ | ⟨hm, hl, hd⟩ | ⟨hm, hl, hd⟩ | ⟨hm, hl, hd⟩ |
    ⟨hm, hl, hd⟩ | ⟨hm, hl, hd⟩ | ⟨hm, hl, hd⟩ | ⟨hm, hl, hd⟩ <;>
      subst hm <;> subst hl <;> subst hd
  · rw [revMove_key_false]
    exact ⟨lookup_octet _ _ hi (by simp [genOctet]), Or.inl rfl⟩
  · rw [revMove_key_true]
    refine ⟨?_, Or.inr rfl⟩
    rw [show (-(-1 : Int)) = 1 from rfl]
    exact lookup_octet _ _ hi (by simp [genOctet])
  · rw [revMove_key_false]
    exact ⟨lookup_octet _ _ hi (by simp [genOctet]), Or.inl rfl⟩
  · rw [revMove_key_true]
    refine ⟨?_, Or.inr rfl⟩
    rw [show (-(-1 : Int)) = 1 from rfl]
    exact lookup_octet _ _ hi (by simp [genOctet])
  · rw [revMove_key_false]
    exact ⟨lookup_octet _ _ hi (by simp [genOctet]), Or.inl rfl⟩
  · rw [revMove_key_true]
    refine ⟨?_, Or.inr rfl⟩
    rw [show (-(-1 : Int)) = 1 from rfl]
    exact lookup_octet _ _ hi (by simp [genOctet])
  · rw [revMove_key_false]
    exact ⟨lookup_octet _ _ hi (by simp [genOctet]), Or.inl rfl⟩
  · rw [revMove_key_true]
    refine ⟨?_, Or.inr rfl⟩
    rw [show (-(-1 : Int)) = 1 from rfl]
    exact lookup_octet _ _ hi (by simp [genOctet])

/-- One iteration of the `applyMoves` loop: a move found in the table
dispatches on layer parity — even layers go to `rotate_LR` on column
`layer // 2`, odd layers to `rotate_UD` on row `layer // 2` — and a
move missing from the table is silently skipped (the loop has no
`else`). -/
def applyMove (tbl : List (List Char × Nat × Int)) (cube : Cube) (m : List Char) : Cube :=
  match lookupMove tbl m with
  | none => cube
  | some (layer, direction) =>
    if layer % 2 = 0 then cube.rotate_LR ((layer / 2 : Nat) : Int) direction
    else cube.rotate_UD ((layer / 2 : Nat) : Int) direction

/-- `applyMoves(cube, moves)`: fold the loop body over the sequence. -/
def applyMoves (tbl : List (List Char × Nat × Int)) (cube : Cube)
    (moves : List (List Char)) : Cube :=
  moves.foldl (applyMove tbl) cube

/-- `encryptCube(cube, moves)`: apply the moves to a (deep-copied,
hence value-semantic) cube. -/
def encryptCube (tbl : List (List Char × Nat × Int)) (cube : Cube)
    (moves : List (List Char)) : Cube :=
  applyMoves tbl cube moves

/-- `decryptCube(cube, moves)`: reverse the sequence, invert each move
with the apostrophe toggle, and apply. -/
def decryptCube (tbl : List (List Char × Nat × Int)) (cube : Cube)
    (moves : List (List Char)) : Cube :=
  applyMoves tbl cube (moves.reverse.map revMove)

theorem applyMoves_append (tbl : List (List Char × Nat × Int)) (cube : Cube)
    (l1 l2 : List (List Char)) :
    applyMoves tbl cube (l1 ++ l2) = applyMoves tbl (applyMoves tbl cube l1) l2 :=
  List.foldl_append _ _ _ _

theorem applyMove_inv {N : Nat} (cube : Cube) (m : List Char)
    (h : (lookupMove (flatTable N) m).isSome) :
    applyMove (flatTable N) (applyMove (flatTable N) cube m) (revMove m) = cube := by
  obtain ⟨⟨l, d⟩, hl⟩ := Option.isSome_iff_exists.1 h
  obtain ⟨hrev, hd⟩ := lookup_pair hl
  unfold applyMove
  rw [hl, hrev]
  by_cases hp : l % 2 = 0
  · simp only [if_pos hp]
    exact rotate_LR_inv cube _ d hd
  · simp only [if_neg hp]
    exact rotate_UD_inv cube _ d hd

theorem roundtrip_flat (N : Nat) (S : List (List Char)) :
    ∀ cube : Cube, (∀ m ∈ S, (lookupMove (flatTable N) m).isSome) →
      applyMoves (flatTable N) (applyMoves (flatTable N) cube S)
        (S.reverse.map revMove) = cube := by
  induction S with
  | nil =>
    intro cube _
    rfl
  | cons m S ih =>
    intro cube hS
    have hm : (lookupMove (flatTable N) m).isSome := hS m (List.mem_cons_self m S)
    have hS' : ∀ m' ∈ S, (lookupMove (flatTable N) m').isSome :=
      fun m' hm' => hS m' (List.mem_cons_of_mem m hm')
    rw [show applyMoves (flatTable N) cube (m :: S) =
      applyMoves (flatTable N) (applyMove (flatTable N) cube m) S from rfl]
    rw [List.reverse_cons, List.map_append, applyMoves_append]
    rw [ih (applyMove (flatTable N) cube m) hS']
    rw [show (([m].map revMove : List (List Char))) = [revMove m] from rfl]
    exact applyMove_inv cube m hm

theorem decrypt_encrypt_flat (N : Nat) (cube : Cube) (S : List (List Char))
    (hS : ∀ m ∈ S, (lookupMove (flatTable N) m).isSome) :
    decryptCube (flatTable N) (encryptCube (flatTable N) cube S) S = cube :=
  roundtrip_flat N S cube hS

/-- `cube.faces[f][r][c]` with `Nat` indices (defined, as in the
source, only for in-range indices; out of range we return the empty
sentinel, which no claim relies on). -/
def Cube.cell (cube : Cube) (f r c : Nat) : String :=
  if h : f < 6 ∧ r < cube.order ∧ c < cube.order then
    cube.faces ⟨f, h.1⟩ ⟨r, h.2.1⟩ ⟨c, h.2.2⟩
  else ""

theorem cell_mk {n : Nat} (F : Fin 6 → Fin n → Fin n → String) (f r c : Nat)
    (hf : f < 6) (hr : r < n) (hc : c < n) :
    Cube.cell ⟨n, F⟩ f r c = F ⟨f, hf⟩ ⟨r, hr⟩ ⟨c, hc⟩ := by
  unfold Cube.cell
  rw [dif_pos ⟨hf, hr, hc⟩]

instance : DecidableEq Cube := fun a b =>
  match a, b with
  | ⟨n, f⟩, ⟨m, g⟩ =>
    if h : n = m then by
      subst h
      exact decidable_of_iff (f = g) (by simp [Cube.mk.injEq])
    else .isFalse (by
      intro he
      injection he with h1 h2
      exact h h1)

theorem spinLR_ring {n : Nat} (G : Fin 6 → Fin n → Fin n → String) (w : Fin n)
    (d : Int) (f : Fin 6) (hf : f ≠ 4 ∧ f ≠ 5) (r c : Fin n) :
    spinLR G w d f r c = G f r c := by
  unfold spinLR
  split_ifs <;> simp [faceRotF, hf.1, hf.2]

theorem spinUD_ring {n : Nat} (G : Fin 6 → Fin n → Fin n → String) (w : Fin n)
    (d : Int) (f : Fin 6) (hf : f ≠ 1 ∧ f ≠ 3) (r c : Fin n) :
    spinUD G w d f r c = G f r c := by
  unfold spinUD
  split_ifs <;> simp [faceRotF, hf.1, hf.2]

/-- A concrete cube with pairwise distinct single-character cells,
used to instantiate witnesses and counterexamples. -/
def sampleCube (n : Nat) : Cube :=
  ⟨n, fun f r c => String.mk [Char.ofNat (65 + 4 * f.val + 2 * r.val + c.val)]⟩

/-- C8: for every cube, every direction, and every layer index outside
`[0, n-1]` (negative or `≥ n`), `rotate_LR` and `rotate_UD` are silent
no-ops: no error, every cell of all six faces unchanged. -/
theorem claim_C8 (cube : Cube) (which d : Int)
    (h : which < 0 ∨ (cube.order : Int) ≤ which) :
    cube.rotate_LR which d = cube ∧ cube.rotate_UD which d = cube := by
  obtain ⟨n, F⟩ := cube
  constructor
  · unfold Cube.rotate_LR
    rw [dif_pos h]
  · unfold Cube.rotate_UD
    rw [dif_pos h]

theorem claim_C8_witness :
    (((-3 : Int) < 0 ∨ ((sampleCube 2).order : Int) ≤ -3) ∧
      (sampleCube 2).rotate_LR (-3) 1 = sampleCube 2 ∧
      (sampleCube 2).rotate_UD (-3) 1 = sampleCube 2) ∧
    (((5 : Int) < 0 ∨ ((sampleCube 2).order : Int) ≤ 5) ∧
      (sampleCube 2).rotate_LR 5 (-1) = sampleCube 2 ∧
      (sampleCube 2).rotate_UD 5 (-1) = sampleCube 2) :=
  ⟨⟨Or.inl (by decide), (claim_C8 (sampleCube 2) (-3) 1 (Or.inl (by decide))).1,
      (claim_C8 (sampleCube 2) (-3) 1 (Or.inl (by decide))).2⟩,
    ⟨Or.inr (by decide), (claim_C8 (sampleCube 2) 5 (-1) (Or.inr (by decide))).1,
      (claim_C8 (sampleCube 2) 5 (-1) (Or.inr (by decide))).2⟩⟩

/-- C2: for every cube, every layer index, and every direction
`d ∈ {+1, -1}`, `rotate_LR(which, d)` followed by
`rotate_LR(which, -d)` restores the cube exactly; likewise for
`rotate_UD` and for `_rotate_face` on any face index. -/
theorem claim_C2 (cube : Cube) (which face_idx d : Int) (hd : d = 1 ∨ d = -1) :
    (cube.rotate_LR which d).rotate_LR which (-d) = cube ∧
    (cube.rotate_UD which d).rotate_UD which (-d) = cube ∧
    (cube.rotate_face face_idx d).rotate_face face_idx (-d) = cube :=
  ⟨rotate_LR_inv cube which d hd, rotate_UD_inv cube which d hd,
    rotate_face_inv cube face_idx d hd⟩

theorem claim_C2_witness :
    ((1 : Int) = 1 ∨ (1 : Int) = -1) ∧
    ((sampleCube 2).rotate_LR 0 1).rotate_LR 0 (-1) = sampleCube 2 ∧
    ((sampleCube 2).rotate_UD 0 1).rotate_UD 0 (-1) = sampleCube 2 ∧
    ((sampleCube 2).rotate_face 4 1).rotate_face 4 (-1) = sampleCube 2 :=
  ⟨Or.inl rfl, claim_C2 (sampleCube 2) 0 4 1 (Or.inl rfl)⟩

/-- C7: flattening a cube and rebuilding a cube of the same order from
the linear form yields an identical cube, and `toLinear` is total,
producing exactly `6·order²` symbols in face order Front, Top, Back,
Down, Left, Right, row-major within each face. -/
theorem claim_C7 (cube : Cube) :
    Cube.init cube.order cube.toLinear = cube ∧
    cube.toLinear.length = 6 * cube.order ^ 2 := by
  refine ⟨init_toLinear cube, ?_⟩
  rw [toLinear_length]
  ring

/-- C9: for every order `n ≥ 1`, the table built by `generate_moves n`
over the initial eight-entry `moveDict` has exactly `8·n` entries with
pairwise distinct keys. -/
theorem claim_C9 (n : Nat) (hn : 1 ≤ n) :
    (generate_moves n).length = 8 * n ∧
    ((generate_moves n).map Prod.fst).Nodup := by
  rw [generate_moves_flat n hn]
  exact ⟨flatTable_length n, flat_keys_nodup n⟩

theorem claim_C9_witness :
    1 ≤ 3 ∧ (generate_moves 3).length = 8 * 3 ∧
      ((generate_moves 3).map Prod.fst).Nodup :=
  ⟨by decide, claim_C9 3 (by decide)⟩

/-- C6 (divergence witnessed): a move string absent from
`moveDict` is silently skipped by `applyMoves` — the cube is returned
unchanged and no error is reported, contrary to the specified
`UnknownMove` rejection. -/
theorem claim_C6 (n : Nat) (cube : Cube) (m : List Char)
    (h : lookupMove (generate_moves n) m = none) :
    applyMoves (generate_moves n) cube [m] = cube := by
  show applyMove (generate_moves n) cube m = cube
  unfold applyMove
  rw [h]

theorem claim_C6_witness :
    lookupMove (generate_moves 1) ['X', '1'] = none ∧
    applyMoves (generate_moves 1) (sampleCube 1) [['X', '1']] = sampleCube 1 :=
  ⟨by decide, claim_C6 1 (sampleCube 1) ['X', '1'] (by decide)⟩

/-- C1: for every cube (any order, any contents) and every move
sequence built entirely from strings present in the move table
generated for some order, decrypting the encryption with the same
sequence restores the cube exactly. -/
theorem claim_C1 (n : Nat) (cube : Cube) (S : List (List Char))
    (hS : ∀ m ∈ S, (lookupMove (generate_moves n) m).isSome) :
    decryptCube (generate_moves n) (encryptCube (generate_moves n) cube S) S = cube := by
  rw [generate_moves_eq] at hS ⊢
  exact decrypt_encrypt_flat (max n 1) cube S hS

/-- A small sample key: `["L1", "U1", "R1", "D1'"]`. -/
def sampleSeq : List (List Char) :=
  [['L', '1'], ['U', '1'], ['R', '1'], ['D', '1', primeChar]]

theorem claim_C1_witness :
    (∀ m ∈ sampleSeq, (lookupMove (generate_moves 1) m).isSome) ∧
    decryptCube (generate_moves 1)
      (encryptCube (generate_moves 1) (sampleCube 1) sampleSeq) sampleSeq =
        sampleCube 1 :=
  ⟨by decide, claim_C1 1 (sampleCube 1) sampleSeq (by decide)⟩

theorem applyMoves_single_congr (tbl : List (List Char × Nat × Int)) (cube : Cube)
    (m1 m2 : List Char) (h : lookupMove tbl m1 = lookupMove tbl m2) :
    applyMoves tbl cube [m1] = applyMoves tbl cube [m2] := by
  show applyMove tbl cube m1 = applyMove tbl cube m2
  unfold applyMove
  rw [h]

/-- C10: in the table built by `generate_moves`, for `1 ≤ k < order`
the distinct strings `U⟨k⟩` and `L⟨k+1⟩` carry the identical
`(layer, direction)` pair — likewise `U⟨k⟩'`/`L⟨k+1⟩'`, `D⟨k⟩`/`R⟨k+1⟩`
and `D⟨k⟩'`/`R⟨k+1⟩'` — so applying either member of a pair to equal
cubes produces equal cubes. -/
theorem claim_C10 (n k : Nat) (hk1 : 1 ≤ k) (hkn : k < n) (cube : Cube) :
    (lookupMove (generate_moves n) (moveKey 'U' k false) =
      lookupMove (generate_moves n) (moveKey 'L' (k + 1) false) ∧
     lookupMove (generate_moves n) (moveKey 'U' k true) =
      lookupMove (generate_moves n) (moveKey 'L' (k + 1) true) ∧
     lookupMove (generate_moves n) (moveKey 'D' k false) =
      lookupMove (generate_moves n) (moveKey 'R' (k + 1) false) ∧
     lookupMove (generate_moves n) (moveKey 'D' k true) =
      lookupMove (generate_moves n) (moveKey 'R' (k + 1) true)) ∧
    (moveKey 'U' k false ≠ moveKey 'L' (k + 1) false ∧
     moveKey 'U' k true ≠ moveKey 'L' (k + 1) true ∧
     moveKey 'D' k false ≠ moveKey 'R' (k + 1) false ∧
     moveKey 'D' k true ≠ moveKey 'R' (k + 1) true) ∧
    (applyMoves (generate_moves n) cube [moveKey 'U' k false] =
      applyMoves (generate_moves n) cube [moveKey 'L' (k + 1) false] ∧
     applyMoves (generate_moves n) cube [moveKey 'U' k true] =
      applyMoves (generate_moves n) cube [moveKey 'L' (k + 1) true] ∧
     applyMoves (generate_moves n) cube [moveKey 'D' k false] =
      applyMoves (generate_moves n) cube [moveKey 'R' (k + 1) false] ∧
     applyMoves (generate_moves n) cube [moveKey 'D' k true] =
      applyMoves (generate_moves n) cube [moveKey 'R' (k + 1) true]) := by
  have hN : n = max n 1 := (Nat.max_eq_left (by omega)).symm
  have hkN : k < max n 1 := by omega
  have hkN1 : k - 1 < max n 1 := by omega
  have hk1' : k - 1 + 1 = k := by omega
  have hUf : lookupMove (flatTable (max n 1)) (moveKey 'U' k false) =
      some (2 * (k - 1) + 2, 1) :=
    lookup_octet _ _ hkN1 (by rw [show (moveKey 'U' k false) =
      (moveKey 'U' ((k - 1) + 1) false) from by rw [hk1']]; simp [genOctet])
  have hUt : lookupMove (flatTable (max n 1)) (moveKey 'U' k true) =
      some (2 * (k - 1) + 2, -1) :=
    lookup_octet _ _ hkN1 (by rw [show (moveKey 'U' k true) =
      (moveKey 'U' ((k - 1) + 1) true) from by rw [hk1']]; simp [genOctet])
  have hDf : lookupMove (flatTable (max n 1)) (moveKey 'D' k false) =
      some (2 * (k - 1) + 3, 1) :=
    lookup_octet _ _ hkN1 (by rw [show (moveKey 'D' k false) =
      (moveKey 'D' ((k - 1) + 1) false) from by rw [hk1']]; simp [genOctet])
  have hDt : lookupMove (flatTable (max n 1)) (moveKey 'D' k true) =
      some (2 * (k - 1) + 3, -1) :=
    lookup_octet _ _ hkN1 (by rw [show (moveKey 'D' k true) =
      (moveKey 'D' ((k - 1) + 1) true) from by rw [hk1']]; simp [genOctet])
  have hLf : lookupMove (flatTable (max n 1)) (moveKey 'L' (k + 1) false) =
      some (2 * k, 1) := lookup_octet _ _ hkN (by simp [genOctet])
  have hLt : lookupMove (flatTable (max n 1)) (moveKey 'L' (k + 1) true) =
      some (2 * k, -1) := lookup_octet _ _ hkN (by simp [genOctet])
  have hRf : lookupMove (flatTable (max n 1)) (moveKey 'R' (k + 1) false) =
      some (2 * k + 1, 1) := lookup_octet _ _ hkN (by simp [genOctet])
  have hRt : lookupMove (flatTable (max n 1)) (moveKey 'R' (k + 1) true) =
      some (2 * k + 1, -1) := lookup_octet _ _ hkN (by simp [genOctet])
  have e2 : 2 * (k - 1) + 2 = 2 * k := by omega
  have e3 : 2 * (k - 1) + 3 = 2 * k + 1 := by omega
  rw [generate_moves_eq]
  have hUL : lookupMove (flatTable (max n 1)) (moveKey 'U' k false) =
      lookupMove (flatTable (max n 1)) (moveKey 'L' (k + 1) false) := by
    rw [hUf, hLf, e2]
  have hUL' : lookupMove (flatTable (max n 1)) (moveKey 'U' k true) =
      lookupMove (flatTable (max n 1)) (moveKey 'L' (k + 1) true) := by
    rw [hUt, hLt, e2]
  have hDR : lookupMove (flatTable (max n 1)) (moveKey 'D' k false) =
      lookupMove (flatTable (max n 1)) (moveKey 'R' (k + 1) false) := by
    rw [hDf, hRf, e3]
  have hDR' : lookupMove (flatTable (max n 1)) (moveKey 'D' k true) =
      lookupMove (flatTable (max n 1)) (moveKey 'R' (k + 1) true) := by
    rw [hDt, hRt, e3]
  refine ⟨⟨hUL, hUL', hDR, hDR'⟩, ⟨?_, ?_, ?_, ?_⟩,
    applyMoves_single_congr _ cube _ _ hUL, applyMoves_single_congr _ cube _ _ hUL',
    applyMoves_single_congr _ cube _ _ hDR, applyMoves_single_congr _ cube _ _ hDR'⟩
  · exact moveKey_ne (Or.inl (by decide))
  · exact moveKey_ne (Or.inl (by decide))
  · exact moveKey_ne (Or.inl (by decide))
  · exact moveKey_ne (Or.inl (by decide))

theorem claim_C10_witness :
    1 ≤ 1 ∧ 1 < 2 ∧
    lookupMove (generate_moves 2) (moveKey 'U' 1 false) =
      lookupMove (generate_moves 2) (moveKey 'L' 2 false) ∧
    moveKey 'U' 1 false ≠ moveKey 'L' 2 false ∧
    applyMoves (generate_moves 2) (sampleCube 2) [moveKey 'U' 1 false] =
      applyMoves (generate_moves 2) (sampleCube 2) [moveKey 'L' 2 false] :=
  ⟨by decide, by decide,
    (claim_C10 2 1 (by decide) (by decide) (sampleCube 2)).1.1,
    (claim_C10 2 1 (by decide) (by decide) (sampleCube 2)).2.1.1,
    (claim_C10 2 1 (by decide) (by decide) (sampleCube 2)).2.2.1⟩

/-- C4 (refuted as stated): the move `R1` maps to layer 1, which is
odd, so `applyMoves` dispatches it to the row rotation `rotate_UD`, not
to the column rotation `rotate_LR` — on a concrete cube the result
differs from the column rotation and equals the row rotation. -/
theorem claim_C4_counterexample :
    applyMoves (generate_moves 1) (sampleCube 1) [['R', '1']] ≠
      (sampleCube 1).rotate_LR 0 1 ∧
    applyMoves (generate_moves 1) (sampleCube 1) [['R', '1']] =
      (sampleCube 1).rotate_UD 0 1 := by decide

/-- C4 (amended): in the generated table, every L-family string
(`L⟨k⟩`, `L⟨k⟩'`) has even layer `2(k-1)` and every U-family string
(`U⟨k⟩`, `U⟨k⟩'`) has even layer `2k`, so both dispatch to `rotate_LR`
on column `layer/2`; every R-family string has odd layer `2k-1` and
every D-family string has odd layer `2k+1`, so both dispatch to
`rotate_UD` on row `(layer-1)/2`.  So the L and U families always
perform column rotations and the R and D families always perform row
rotations, in both directions. -/
theorem claim_C4_amended (n k : Nat) (hk1 : 1 ≤ k) (hkn : k ≤ n) (cube : Cube) :
    (lookupMove (generate_moves n) (moveKey 'L' k false) = some (2 * (k - 1), 1) ∧
     lookupMove (generate_moves n) (moveKey 'R' k false) = some (2 * (k - 1) + 1, 1) ∧
     lookupMove (generate_moves n) (moveKey 'U' k false) = some (2 * (k - 1) + 2, 1) ∧
     lookupMove (generate_moves n) (moveKey 'D' k false) = some (2 * (k - 1) + 3, 1) ∧
     lookupMove (generate_moves n) (moveKey 'L' k true) = some (2 * (k - 1), -1) ∧
     lookupMove (generate_moves n) (moveKey 'R' k true) = some (2 * (k - 1) + 1, -1) ∧
     lookupMove (generate_moves n) (moveKey 'U' k true) = some (2 * (k - 1) + 2, -1) ∧
     lookupMove (generate_moves n) (moveKey 'D' k true) = some (2 * (k - 1) + 3, -1)) ∧
    (applyMoves (generate_moves n) cube [moveKey 'L' k false] =
      cube.rotate_LR ((k - 1 : Nat) : Int) 1 ∧
     applyMoves (generate_moves n) cube [moveKey 'R' k false] =
      cube.rotate_UD ((k - 1 : Nat) : Int) 1 ∧
     applyMoves (generate_moves n) cube [moveKey 'U' k false] =
      cube.rotate_LR ((k : Nat) : Int) 1 ∧
     applyMoves (generate_moves n) cube [moveKey 'D' k false] =
      cube.rotate_UD ((k : Nat) : Int) 1 ∧
     applyMoves (generate_moves n) cube [moveKey 'L' k true] =
      cube.rotate_LR ((k - 1 : Nat) : Int) (-1) ∧
     applyMoves (generate_moves n) cube [moveKey 'R' k true] =
      cube.rotate_UD ((k - 1 : Nat) : Int) (-1) ∧
     applyMoves (generate_moves n) cube [moveKey 'U' k true] =
      cube.rotate_LR ((k : Nat) : Int) (-1) ∧
     applyMoves (generate_moves n) cube [moveKey 'D' k true] =
      cube.rotate_UD ((k : Nat) : Int) (-1)) := by
  have hkN1 : k - 1 < max n 1 := by omega
  have hk1' : k - 1 + 1 = k := by omega
  have hLf : lookupMove (flatTable (max n 1)) (moveKey 'L' k false) =
      some (2 * (k - 1), 1) :=
    lookup_octet _ _ hkN1 (by rw [show (moveKey 'L' k false) =
      (moveKey 'L' ((k - 1) + 1) false) from by rw [hk1']]; simp [genOctet])
  have hRf : lookupMove (flatTable (max n 1)) (moveKey 'R' k false) =
      some (2 * (k - 1) + 1, 1) :=
    lookup_octet _ _ hkN1 (by rw [show (moveKey 'R' k false) =
      (moveKey 'R' ((k - 1) + 1) false) from by rw [hk1']]; simp [genOctet])
  have hUf : lookupMove (flatTable (max n 1)) (moveKey 'U' k false) =
      some (2 * (k - 1) + 2, 1) :=
    lookup_octet _ _ hkN1 (by rw [show (moveKey 'U' k false) =
      (moveKey 'U' ((k - 1) + 1) false) from by rw [hk1']]; simp [genOctet])
  have hDf : lookupMove (flatTable (max n 1)) (moveKey 'D' k false) =
      some (2 * (k - 1) + 3, 1) :=
    lookup_octet _ _ hkN1 (by rw [show (moveKey 'D' k false) =
      (moveKey 'D' ((k - 1) + 1) false) from by rw [hk1']]; simp [genOctet])
  have hLt : lookupMove (flatTable (max n 1)) (moveKey 'L' k true) =
      some (2 * (k - 1), -1) :=
    lookup_octet _ _ hkN1 (by rw [show (moveKey 'L' k true) =
      (moveKey 'L' ((k - 1) + 1) true) from by rw [hk1']]; simp [genOctet])
  have hRt : lookupMove (flatTable (max n 1)) (moveKey 'R' k true) =
      some (2 * (k - 1) + 1, -1) :=
    lookup_octet _ _ hkN1 (by rw [show (moveKey 'R' k true) =
      (moveKey 'R' ((k - 1) + 1) true) from by rw [hk1']]; simp [genOctet])
  have hUt : lookupMove (flatTable (max n 1)) (moveKey 'U' k true) =
      some (2 * (k - 1) + 2, -1) :=
    lookup_octet _ _ hkN1 (by rw [show (moveKey 'U' k true) =
      (moveKey 'U' ((k - 1) + 1) true) from by rw [hk1']]; simp [genOctet])
  have hDt : lookupMove (flatTable (max n 1)) (moveKey 'D' k true) =
      some (2 * (k - 1) + 3, -1) :=
    lookup_octet _ _ hkN1 (by rw [show (moveKey 'D' k true) =
      (moveKey 'D' ((k - 1) + 1) true) from by rw [hk1']]; simp [genOctet])
  rw [generate_moves_eq]
  refine ⟨⟨hLf, hRf, hUf, hDf, hLt, hRt, hUt, hDt⟩,
    ?_, ?_, ?_, ?_, ?_, ?_, ?_, ?_⟩
  · show applyMove (flatTable (max n 1)) cube (moveKey 'L' k false) = _
    simp only [applyMove, hLf]
    rw [if_pos (by omega)]
    rw [show 2 * (k - 1) / 2 = k - 1 from by omega]
  · show applyMove (flatTable (max n 1)) cube (moveKey 'R' k false) = _
    simp only [applyMove, hRf]
    rw [if_neg (by omega)]
    rw [show (2 * (k - 1) + 1) / 2 = k - 1 from by omega]
  · show applyMove (flatTable (max n 1)) cube (moveKey 'U' k false) = _
    simp only [applyMove, hUf]
    rw [if_pos (by omega)]
    rw [show (2 * (k - 1) + 2) / 2 = k from by omega]
  · show applyMove (flatTable (max n 1)) cube (moveKey 'D' k false) = _
    simp only [applyMove, hDf]
    rw [if_neg (by omega)]
    rw [show (2 * (k - 1) + 3) / 2 = k from by omega]
  · show applyMove (flatTable (max n 1)) cube (moveKey 'L' k true) = _
    simp only [applyMove, hLt]
    rw [if_pos (by omega)]
    rw [show 2 * (k - 1) / 2 = k - 1 from by omega]
  · show applyMove (flatTable (max n 1)) cube (moveKey 'R' k true) = _
    simp only [applyMove, hRt]
    rw [if_neg (by omega)]
    rw [show (2 * (k - 1) + 1) / 2 = k - 1 from by omega]
  · show applyMove (flatTable (max n 1)) cube (moveKey 'U' k true) = _
    simp only [applyMove, hUt]
    rw [if_pos (by omega)]
    rw [show (2 * (k - 1) + 2) / 2 = k from by omega]
  · show applyMove (flatTable (max n 1)) cube (moveKey 'D' k true) = _
    simp only [applyMove, hDt]
    rw [if_neg (by omega)]
    rw [show (2 * (k - 1) + 3) / 2 = k from by omega]

theorem claim_C4_amended_witness :
    1 ≤ 1 ∧ 1 ≤ 2 ∧
    lookupMove (generate_moves 2) (moveKey 'R' 1 false) = some (1, 1) ∧
    lookupMove (generate_moves 2) (moveKey 'U' 1 true) = some (2, -1) ∧
    applyMoves (generate_moves 2) (sampleCube 2) [moveKey 'R' 1 false] =
      (sampleCube 2).rotate_UD ((0 : Nat) : Int) 1 ∧
    applyMoves (generate_moves 2) (sampleCube 2) [moveKey 'U' 1 true] =
      (sampleCube 2).rotate_LR ((1 : Nat) : Int) (-1) :=
  ⟨by decide, by decide,
    (claim_C4_amended 2 1 (by decide) (by decide) (sampleCube 2)).1.2.1,
    (claim_C4_amended 2 1 (by decide) (by decide) (sampleCube 2)).1.2.2.2.2.2.2.1,
    (claim_C4_amended 2 1 (by decide) (by decide) (sampleCube 2)).2.2.1,
    (claim_C4_amended 2 1 (by decide) (by decide) (sampleCube 2)).2.2.2.2.2.2.2.1⟩

theorem rotate_UD_cw_cell (n : Nat) (F : Fin 6 → Fin n → Fin n → String) (k : Nat)
    (hk : k < n) (f r c : Nat) (hf : f < 6) (hr : r < n) (hc : c < n) :
    (Cube.rotate_UD ⟨n, F⟩ (k : Int) 1).cell f r c =
      spinUD (udCW F ⟨k, hk⟩) ⟨k, hk⟩ 1 ⟨f, hf⟩ ⟨r, hr⟩ ⟨c, hc⟩ := by
  rw [rotate_UD_eq F k hk 1]
  simp only [eq_self_iff_true, if_true]
  exact cell_mk _ f r c hf hr hc

theorem rotate_LR_cw_cell (n : Nat) (F : Fin 6 → Fin n → Fin n → String) (k : Nat)
    (hk : k < n) (f r c : Nat) (hf : f < 6) (hr : r < n) (hc : c < n) :
    (Cube.rotate_LR ⟨n, F⟩ (k : Int) 1).cell f r c =
      spinLR (lrCW F ⟨k, hk⟩) ⟨k, hk⟩ 1 ⟨f, hf⟩ ⟨r, hr⟩ ⟨c, hc⟩ := by
  rw [rotate_LR_eq F k hk 1]
  simp only [eq_self_iff_true, if_true]
  exact cell_mk _ f r c hf hr hc

/-- C5 (refuted as stated): on a concrete order-2 cube, the clockwise
row rotation does not put the old Front row onto the Right face — cell
Right[0][0] of the rotated cube differs from the old Front[0][0]. -/
theorem claim_C5_counterexample :
    ((sampleCube 2).rotate_UD 0 1).cell 5 0 0 ≠ (sampleCube 2).cell 0 0 0 ∧
    ((sampleCube 2).rotate_UD 0 1).cell 4 0 0 = (sampleCube 2).cell 0 0 0 := by
  decide

/-- C5 (amended): the clockwise row rotation (`rotate_UD` with
direction `1`) carries the layer contents around the cycle
Front→Left→Back→Right→Front — the old Front row ends up on the Left
face, Left's on Back, Back's on Right, Right's on Front — with no index
mirroring on any of the four faces; the clockwise column rotation still
sends the old Front column to Top unmirrored. -/
theorem claim_C5_amended (cube : Cube) (k r c : Nat)
    (hk : k < cube.order) (hr : r < cube.order) (hc : c < cube.order) :
    ((cube.rotate_UD (k : Int) 1).cell 4 k c = cube.cell 0 k c ∧
     (cube.rotate_UD (k : Int) 1).cell 2 k c = cube.cell 4 k c ∧
     (cube.rotate_UD (k : Int) 1).cell 5 k c = cube.cell 2 k c ∧
     (cube.rotate_UD (k : Int) 1).cell 0 k c = cube.cell 5 k c) ∧
    (cube.rotate_LR (k : Int) 1).cell 1 r k = cube.cell 0 r k := by
  obtain ⟨n, F⟩ := cube
  replace hk : k < n := hk
  replace hr : r < n := hr
  replace hc : c < n := hc
  refine ⟨⟨?_, ?_, ?_, ?_⟩, ?_⟩
  · rw [rotate_UD_cw_cell n F k hk 4 k c (by omega) hk hc,
      cell_mk F 0 k c (by omega) hk hc]
    show spinUD (udCW F ⟨k, hk⟩) ⟨k, hk⟩ 1 4 ⟨k, hk⟩ ⟨c, hc⟩ = F 0 ⟨k, hk⟩ ⟨c, hc⟩
    rw [spinUD_ring (udCW F ⟨k, hk⟩) ⟨k, hk⟩ 1 (4 : Fin 6) (by decide) ⟨k, hk⟩ ⟨c, hc⟩]
    simp [udCW]
  · rw [rotate_UD_cw_cell n F k hk 2 k c (by omega) hk hc,
      cell_mk F 4 k c (by omega) hk hc]
    show spinUD (udCW F ⟨k, hk⟩) ⟨k, hk⟩ 1 2 ⟨k, hk⟩ ⟨c, hc⟩ = F 4 ⟨k, hk⟩ ⟨c, hc⟩
    rw [spinUD_ring (udCW F ⟨k, hk⟩) ⟨k, hk⟩ 1 (2 : Fin 6) (by decide) ⟨k, hk⟩ ⟨c, hc⟩]
    simp [udCW]
  · rw [rotate_UD_cw_cell n F k hk 5 k c (by omega) hk hc,
      cell_mk F 2 k c (by omega) hk hc]
    show spinUD (udCW F ⟨k, hk⟩) ⟨k, hk⟩ 1 5 ⟨k, hk⟩ ⟨c, hc⟩ = F 2 ⟨k, hk⟩ ⟨c, hc⟩
    rw [spinUD_ring (udCW F ⟨k, hk⟩) ⟨k, hk⟩ 1 (5 : Fin 6) (by decide) ⟨k, hk⟩ ⟨c, hc⟩]
    simp [udCW]
  · rw [rotate_UD_cw_cell n F k hk 0 k c (by omega) hk hc,
      cell_mk F 5 k c (by omega) hk hc]
    show spinUD (udCW F ⟨k, hk⟩) ⟨k, hk⟩ 1 0 ⟨k, hk⟩ ⟨c, hc⟩ = F 5 ⟨k, hk⟩ ⟨c, hc⟩
    rw [spinUD_ring (udCW F ⟨k, hk⟩) ⟨k, hk⟩ 1 (0 : Fin 6) (by decide) ⟨k, hk⟩ ⟨c, hc⟩]
    simp [udCW]
  · rw [rotate_LR_cw_cell n F k hk 1 r k (by omega) hr hk,
      cell_mk F 0 r k (by omega) hr hk]
    show spinLR (lrCW F ⟨k, hk⟩) ⟨k, hk⟩ 1 1 ⟨r, hr⟩ ⟨k, hk⟩ = F 0 ⟨r, hr⟩ ⟨k, hk⟩
    rw [spinLR_ring (lrCW F ⟨k, hk⟩) ⟨k, hk⟩ 1 (1 : Fin 6) (by decide) ⟨r, hr⟩ ⟨k, hk⟩]
    simp [lrCW]

theorem claim_C5_amended_witness :
    0 < (sampleCube 2).order ∧ 1 < (sampleCube 2).order ∧
    ((sampleCube 2).rotate_UD ((0 : Nat) : Int) 1).cell 4 0 1 =
      (sampleCube 2).cell 0 0 1 ∧
    ((sampleCube 2).rotate_LR ((0 : Nat) : Int) 1).cell 1 1 0 =
      (sampleCube 2).cell 0 1 0 :=
  ⟨by decide, by decide,
    (claim_C5_amended (sampleCube 2) 0 1 1 (by decide) (by decide) (by decide)).1.1,
    (claim_C5_amended (sampleCube 2) 0 1 1 (by decide) (by decide) (by decide)).2⟩

/-- C3: for every cube and in-range column `k`, the clockwise column
rotation simultaneously sets new Front[r][k] = old Down[n-1-r][n-1-k],
new Down[n-1-r][n-1-k] = old Back[r][n-1-k], new Back[r][n-1-k] =
old Top[n-1-r][k], new Top[r][k] = old Front[r][k], and leaves every
other cell of those four faces unchanged. -/
theorem claim_C3 (cube : Cube) (k r c : Nat)
    (hk : k < cube.order) (hr : r < cube.order) (hc : c < cube.order) :
    ((cube.rotate_LR (k : Int) 1).cell 0 r k =
       cube.cell 3 (cube.order - 1 - r) (cube.order - 1 - k) ∧
     (cube.rotate_LR (k : Int) 1).cell 3 (cube.order - 1 - r) (cube.order - 1 - k) =
       cube.cell 2 r (cube.order - 1 - k) ∧
     (cube.rotate_LR (k : Int) 1).cell 2 r (cube.order - 1 - k) =
       cube.cell 1 (cube.order - 1 - r) k ∧
     (cube.rotate_LR (k : Int) 1).cell 1 r k = cube.cell 0 r k) ∧
    (c ≠ k →
      (cube.rotate_LR (k : Int) 1).cell 0 r c = cube.cell 0 r c ∧
      (cube.rotate_LR (k : Int) 1).cell 1 r c = cube.cell 1 r c) ∧
    (c ≠ cube.order - 1 - k →
      (cube.rotate_LR (k : Int) 1).cell 2 r c = cube.cell 2 r c ∧
      (cube.rotate_LR (k : Int) 1).cell 3 r c = cube.cell 3 r c) := by
  obtain ⟨n, F⟩ := cube
  replace hk : k < n := hk
  replace hr : r < n := hr
  replace hc : c < n := hc
  have hrv2 : rv (⟨n - 1 - r, by omega⟩ : Fin n) = ⟨r, hr⟩ := by
    apply Fin.ext
    simp only [rv]
    omega
  have h1 : (Cube.rotate_LR ⟨n, F⟩ (k : Int) 1).cell 0 r k =
      Cube.cell ⟨n, F⟩ 3 (n - 1 - r) (n - 1 - k) := by
    rw [rotate_LR_cw_cell n F k hk 0 r k (by omega) hr hk,
        cell_mk F 3 (n - 1 - r) (n - 1 - k) (by omega) (by omega) (by omega)]
    show spinLR (lrCW F ⟨k, hk⟩) ⟨k, hk⟩ 1 0 ⟨r, hr⟩ ⟨k, hk⟩ =
        F 3 ⟨n - 1 - r, by omega⟩ ⟨n - 1 - k, by omega⟩
    rw [spinLR_ring (lrCW F ⟨k, hk⟩) ⟨k, hk⟩ 1 (0 : Fin 6) (by decide) ⟨r, hr⟩ ⟨k, hk⟩]
    simp [lrCW, rv]
  have h2 : (Cube.rotate_LR ⟨n, F⟩ (k : Int) 1).cell 3 (n - 1 - r) (n - 1 - k) =
      Cube.cell ⟨n, F⟩ 2 r (n - 1 - k) := by
    rw [rotate_LR_cw_cell n F k hk 3 (n - 1 - r) (n - 1 - k) (by omega) (by omega)
        (by omega),
      cell_mk F 2 r (n - 1 - k) (by omega) hr (by omega)]
    show spinLR (lrCW F ⟨k, hk⟩) ⟨k, hk⟩ 1 3 ⟨n - 1 - r, by omega⟩ ⟨n - 1 - k, by omega⟩ =
        F 2 ⟨r, hr⟩ ⟨n - 1 - k, by omega⟩
    rw [spinLR_ring (lrCW F ⟨k, hk⟩) ⟨k, hk⟩ 1 (3 : Fin 6) (by decide)
      ⟨n - 1 - r, by omega⟩ ⟨n - 1 - k, by omega⟩]
    unfold lrCW
    rw [if_neg (by simp), if_pos ⟨rfl, rfl⟩, hrv2]
    rfl
  have h3 : (Cube.rotate_LR ⟨n, F⟩ (k : Int) 1).cell 2 r (n - 1 - k) =
      Cube.cell ⟨n, F⟩ 1 (n - 1 - r) k := by
    rw [rotate_LR_cw_cell n F k hk 2 r (n - 1 - k) (by omega) hr (by omega),
      cell_mk F 1 (n - 1 - r) k (by omega) (by omega) hk]
    show spinLR (lrCW F ⟨k, hk⟩) ⟨k, hk⟩ 1 2 ⟨r, hr⟩ ⟨n - 1 - k, by omega⟩ =
        F 1 ⟨n - 1 - r, by omega⟩ ⟨k, hk⟩
    rw [spinLR_ring (lrCW F ⟨k, hk⟩) ⟨k, hk⟩ 1 (2 : Fin 6) (by decide)
      ⟨r, hr⟩ ⟨n - 1 - k, by omega⟩]
    unfold lrCW
    rw [if_neg (by simp), if_neg (by simp), if_pos ⟨rfl, rfl⟩]
    rfl
  have h4 : (Cube.rotate_LR ⟨n, F⟩ (k : Int) 1).cell 1 r k =
      Cube.cell ⟨n, F⟩ 0 r k := by
    rw [rotate_LR_cw_cell n F k hk 1 r k (by omega) hr hk,
      cell_mk F 0 r k (by omega) hr hk]
    show spinLR (lrCW F ⟨k, hk⟩) ⟨k, hk⟩ 1 1 ⟨r, hr⟩ ⟨k, hk⟩ = F 0 ⟨r, hr⟩ ⟨k, hk⟩
    rw [spinLR_ring (lrCW F ⟨k, hk⟩) ⟨k, hk⟩ 1 (1 : Fin 6) (by decide) ⟨r, hr⟩ ⟨k, hk⟩]
    simp [lrCW]
  have h5 : c ≠ k → (Cube.rotate_LR ⟨n, F⟩ (k : Int) 1).cell 0 r c =
      Cube.cell ⟨n, F⟩ 0 r c := by
    intro hne
    rw [rotate_LR_cw_cell n F k hk 0 r c (by omega) hr hc,
      cell_mk F 0 r c (by omega) hr hc]
    show spinLR (lrCW F ⟨k, hk⟩) ⟨k, hk⟩ 1 0 ⟨r, hr⟩ ⟨c, hc⟩ = F 0 ⟨r, hr⟩ ⟨c, hc⟩
    rw [spinLR_ring (lrCW F ⟨k, hk⟩) ⟨k, hk⟩ 1 (0 : Fin 6) (by decide) ⟨r, hr⟩ ⟨c, hc⟩]
    simp [lrCW, Fin.mk.injEq, hne]
  have h6 : c ≠ k → (Cube.rotate_LR ⟨n, F⟩ (k : Int) 1).cell 1 r c =
      Cube.cell ⟨n, F⟩ 1 r c := by
    intro hne
    rw [rotate_LR_cw_cell n F k hk 1 r c (by omega) hr hc,
      cell_mk F 1 r c (by omega) hr hc]
    show spinLR (lrCW F ⟨k, hk⟩) ⟨k, hk⟩ 1 1 ⟨r, hr⟩ ⟨c, hc⟩ = F 1 ⟨r, hr⟩ ⟨c, hc⟩
    rw [spinLR_ring (lrCW F ⟨k, hk⟩) ⟨k, hk⟩ 1 (1 : Fin 6) (by decide) ⟨r, hr⟩ ⟨c, hc⟩]
    simp [lrCW, Fin.mk.injEq, hne]
  have h7 : c ≠ n - 1 - k → (Cube.rotate_LR ⟨n, F⟩ (k : Int) 1).cell 2 r c =
      Cube.cell ⟨n, F⟩ 2 r c := by
    intro hne
    rw [rotate_LR_cw_cell n F k hk 2 r c (by omega) hr hc,
      cell_mk F 2 r c (by omega) hr hc]
    show spinLR (lrCW F ⟨k, hk⟩) ⟨k, hk⟩ 1 2 ⟨r, hr⟩ ⟨c, hc⟩ = F 2 ⟨r, hr⟩ ⟨c, hc⟩
    rw [spinLR_ring (lrCW F ⟨k, hk⟩) ⟨k, hk⟩ 1 (2 : Fin 6) (by decide) ⟨r, hr⟩ ⟨c, hc⟩]
    simp [lrCW, rv, Fin.mk.injEq, hne]
  have h8 : c ≠ n - 1 - k → (Cube.rotate_LR ⟨n, F⟩ (k : Int) 1).cell 3 r c =
      Cube.cell ⟨n, F⟩ 3 r c := by
    intro hne
    rw [rotate_LR_cw_cell n F k hk 3 r c (by omega) hr hc,
      cell_mk F 3 r c (by omega) hr hc]
    show spinLR (lrCW F ⟨k, hk⟩) ⟨k, hk⟩ 1 3 ⟨r, hr⟩ ⟨c, hc⟩ = F 3 ⟨r, hr⟩ ⟨c, hc⟩
    rw [spinLR_ring (lrCW F ⟨k, hk⟩) ⟨k, hk⟩ 1 (3 : Fin 6) (by decide) ⟨r, hr⟩ ⟨c, hc⟩]
    simp [lrCW, rv, Fin.mk.injEq, hne]
  exact ⟨⟨h1, h2, h3, h4⟩, fun hne => ⟨h5 hne, h6 hne⟩, fun hne => ⟨h7 hne, h8 hne⟩⟩

theorem claim_C3_witness :
    (0 < (sampleCube 2).order ∧ 1 < (sampleCube 2).order) ∧
    ((sampleCube 2).rotate_LR ((0 : Nat) : Int) 1).cell 0 0 0 =
      (sampleCube 2).cell 3 1 1 ∧
    ((sampleCube 2).rotate_LR ((0 : Nat) : Int) 1).cell 1 0 0 =
      (sampleCube 2).cell 0 0 0 ∧
    ((sampleCube 2).rotate_LR ((0 : Nat) : Int) 1).cell 0 0 1 =
      (sampleCube 2).cell 0 0 1 :=
  ⟨⟨by decide, by decide⟩,
    (claim_C3 (sampleCube 2) 0 0 1 (by decide) (by decide) (by decide)).1.1,
    (claim_C3 (sampleCube 2) 0 0 1 (by decide) (by decide) (by decide)).1.2.2.2,
    ((claim_C3 (sampleCube 2) 0 0 1 (by decide) (by decide) (by decide)).2.1
      (by decide)).1⟩

end CubeSpec